import Mathlib

/-!
Shallow embedding of the update/read reconciliation engine of the
`terraform-provider-fastly` repository (package `fastly`), centred on
`resourceServiceV1Update`, `resourceServiceV1Read` and `findService` in
`src/fastly/resource_fastly_service_v1.go`, the per-block set-difference
reconciliation repeated inline there (and mirrored by
`SnippetAttributeHandler.Process` in `block_fastly_service_v1_snippet.go`
and `processDomain` in `src/unnamed/part_004`), and `processWAF` in
`block_fastly_service_v1_waf.go`.

The remote Fastly API is modelled as a deterministic oracle that fixes the
result of every call the provider can issue; the provider functions are
embedded as pure functions from the oracle and the Terraform resource data
to the list of issued API calls plus an error outcome.  Machine integers of
the source (version numbers, TTLs, HTTP status codes) are modelled as `Nat`;
none of the code relies on overflow.  The `validateVCLs` pre-check invoked at
the top of create/update is defined in a file absent from the sources; it
issues no remote call and can only abort the update before any call is made,
so it is omitted from the embedding (omitting it only removes some empty
traces and affects none of the properties below).
-/

/-- A sub-resource configuration element as it sits in a Terraform
`schema.Set`: the `name` attribute (the key used by the delete endpoints),
the remaining attributes collapsed into an opaque `payload` (set membership
in Terraform hashes the whole map, so element identity is whole-value
equality), plus the two attributes that drive extra calls in the source:
the `backends` list of a director block and the `main` flag of a vcl block
(empty/false for every other block type). -/
structure Elem where
  name : String
  payload : String
  backends : List String
  main : Bool
deriving DecidableEq, Repr

/-- The 21 set-difference sub-resource block types registered in the
`resourceServiceV1` schema and reconciled inline by
`resourceServiceV1Update` (src/fastly/resource_fastly_service_v1.go). -/
inductive BlockType
  | condition
  | domain
  | healthcheck
  | backend
  | director
  | header
  | gzip
  | s3logging
  | papertrail
  | sumologic
  | gcslogging
  | bigquerylogging
  | syslog
  | logentries
  | splunk
  | blobstoragelogging
  | response_object
  | request_setting
  | vcl
  | snippet
  | cache_setting
deriving DecidableEq, Repr, Fintype

/-- An error returned by a go-fastly client call: either a
`*gofastly.HTTPError` carrying a status code, or any other error. -/
inductive ApiErr
  | http (status : Nat)
  | other (msg : String)
deriving DecidableEq, Repr

/-- The remote calls `resourceServiceV1Update` can issue, at the granularity
the source issues them.  `deleteElem`/`createElem` stand for the per-type
DeleteX/CreateX endpoints; `createDirectorBackend` and `activateVCL` are the
two extra calls the director and vcl create loops issue. -/
inductive ApiCall
  | updateService (name comment : String)
  | updateVersion (version : Nat) (comment : String)
  | cloneVersion (version : Nat)
  | updateSettings (version : Nat) (defaultHost : String) (defaultTTL : Nat)
  | deleteElem (bt : BlockType) (version : Nat) (name : String)
  | createElem (bt : BlockType) (version : Nat) (e : Elem)
  | createDirectorBackend (version : Nat) (director backend : String)
  | activateVCL (version : Nat) (name : String)
  | validateVersion (version : Nat)
  | activateVersion (version : Nat)
deriving DecidableEq, Repr

/-- The remote API modelled as a deterministic environment: every call the
update can issue has its result fixed up front.  `cloneRes` yields the
number of the freshly cloned version, `validateRes` the (valid, msg) pair
of `ValidateVersion`. -/
structure Oracle where
  updateServiceRes : Option ApiErr
  updateVersionRes : Nat → Option ApiErr
  cloneRes : Except ApiErr Nat
  updateSettingsRes : Option ApiErr
  deleteRes : BlockType → String → Option ApiErr
  createRes : BlockType → Elem → Option ApiErr
  createDirectorBackendRes : String → String → Option ApiErr
  activateVCLRes : String → Option ApiErr
  validateRes : Except ApiErr (Bool × String)
  activateRes : Option ApiErr

/-- The slice of `*schema.ResourceData` that `resourceServiceV1Update`
consults: old/new value of every attribute it reads (`d.HasChange` is
old-new inequality, `d.Get` returns the new value), the recorded
`active_version`, and the `activate` flag. -/
structure ResourceState where
  id : String
  oldName : String
  newName : String
  oldComment : String
  newComment : String
  oldVersionComment : String
  newVersionComment : String
  activeVersion : Nat
  activate : Bool
  oldDefaultHost : String
  newDefaultHost : String
  oldDefaultTTL : Nat
  newDefaultTTL : Nat
  oldBlock : BlockType → List Elem
  newBlock : BlockType → List Elem

/-- `schema.Set.Difference`: the elements of `a` that are not in `b`
(whole-element identity, as Terraform hashes the entire map). -/
def setDiff (a b : List Elem) : List Elem :=
  a.filter (fun e => decide (e ∉ b))

/-- The delete loop of a block reconciliation: one DeleteX call per removed
element, in order; an `*HTTPError` with status 404 is ignored and the loop
continues; any other non-nil error aborts with that error. -/
def runDeletes (o : Oracle) (bt : BlockType) (v : Nat) :
    List Elem → List ApiCall × Option ApiErr
  | [] => ([], none)
  | e :: rest =>
    match o.deleteRes bt e.name with
    | some err =>
      if err = ApiErr.http 404 then
        let r := runDeletes o bt v rest
        (ApiCall.deleteElem bt v e.name :: r.fst, r.snd)
      else ([ApiCall.deleteElem bt v e.name], some err)
    | none =>
      let r := runDeletes o bt v rest
      (ApiCall.deleteElem bt v e.name :: r.fst, r.snd)

/-- The `CreateDirectorBackend` loop issued after a director is created,
one call per name in the director's `backends` set; any error aborts. -/
def runDirectorBackends (o : Oracle) (v : Nat) (dir : String) :
    List String → List ApiCall × Option ApiErr
  | [] => ([], none)
  | b :: rest =>
    match o.createDirectorBackendRes dir b with
    | some err => ([ApiCall.createDirectorBackend v dir b], some err)
    | none =>
      let r := runDirectorBackends o v dir rest
      (ApiCall.createDirectorBackend v dir b :: r.fst, r.snd)

/-- The extra calls the create loop issues right after `CreateX` for one
added element: the director-backend loop for a director, `ActivateVCL` for
a vcl with `main = true`, nothing for every other block type. -/
def createExtras (o : Oracle) (bt : BlockType) (v : Nat) (e : Elem) :
    List ApiCall × Option ApiErr :=
  if bt = BlockType.director then runDirectorBackends o v e.name e.backends
  else if bt = BlockType.vcl then
    if e.main then
      match o.activateVCLRes e.name with
      | some err => ([ApiCall.activateVCL v e.name], some err)
      | none => ([ApiCall.activateVCL v e.name], none)
    else ([], none)
  else ([], none)

/-- The create loop of a block reconciliation: one CreateX call per added
element (followed by its extra calls), in order; any non-nil error aborts
with that error. -/
def runCreates (o : Oracle) (bt : BlockType) (v : Nat) :
    List Elem → List ApiCall × Option ApiErr
  | [] => ([], none)
  | e :: rest =>
    match o.createRes bt e with
    | some err => ([ApiCall.createElem bt v e], some err)
    | none =>
      let ex := createExtras o bt v e
      match ex.snd with
      | some err => (ApiCall.createElem bt v e :: ex.fst, some err)
      | none =>
        let r := runCreates o bt v rest
        (ApiCall.createElem bt v e :: (ex.fst ++ r.fst), r.snd)

/-- One block reconciliation as repeated inline in `resourceServiceV1Update`
(and mirrored by `SnippetAttributeHandler.Process` and `processDomain`):
`remove := old.Difference(new)`, `add := new.Difference(old)`, then the
delete loop followed by the create loop, both against version `v`. -/
def processBlock (o : Oracle) (st : ResourceState) (bt : BlockType) (v : Nat) :
    List ApiCall × Option ApiErr :=
  let remove := setDiff (st.oldBlock bt) (st.newBlock bt)
  let add := setDiff (st.newBlock bt) (st.oldBlock bt)
  let d := runDeletes o bt v remove
  match d.snd with
  | some err => (d.fst, some err)
  | none =>
    let c := runCreates o bt v add
    (d.fst ++ c.fst, c.snd)

/-- The fixed order in which `resourceServiceV1Update` reconciles the block
types: conditions first (they can be referenced by other objects), then
domains, then healthchecks before backends, then the rest in source order. -/
def processOrder : List BlockType :=
  [BlockType.condition, BlockType.domain, BlockType.healthcheck,
   BlockType.backend, BlockType.director, BlockType.header, BlockType.gzip,
   BlockType.s3logging, BlockType.papertrail, BlockType.sumologic,
   BlockType.gcslogging, BlockType.bigquerylogging, BlockType.syslog,
   BlockType.logentries, BlockType.splunk, BlockType.blobstoragelogging,
   BlockType.response_object, BlockType.request_setting, BlockType.vcl,
   BlockType.snippet, BlockType.cache_setting]

/-- The block reconciliations in sequence: a block is processed only when
its attribute changed (`d.HasChange`); the first error aborts the whole
sequence with that error. -/
def processBlocks (o : Oracle) (st : ResourceState) (v : Nat) :
    List BlockType → List ApiCall × Option ApiErr
  | [] => ([], none)
  | bt :: rest =>
    if st.oldBlock bt = st.newBlock bt then
      processBlocks o st v rest
    else
      let r := processBlock o st bt v
      match r.snd with
      | some e => (r.fst, some e)
      | none =>
        let r2 := processBlocks o st v rest
        (r.fst ++ r2.fst, r2.snd)

/-- The block types of the `needsChange` loop of `resourceServiceV1Update`,
in its source order (the two non-block entries of that loop, `default_host`
and `default_ttl`, are handled separately in `needsChange`). -/
def needsChangeBlocks : List BlockType :=
  [BlockType.domain, BlockType.backend, BlockType.director, BlockType.header,
   BlockType.gzip, BlockType.healthcheck, BlockType.s3logging,
   BlockType.papertrail, BlockType.gcslogging, BlockType.bigquerylogging,
   BlockType.syslog, BlockType.sumologic, BlockType.logentries,
   BlockType.splunk, BlockType.blobstoragelogging, BlockType.response_object,
   BlockType.condition, BlockType.request_setting, BlockType.cache_setting,
   BlockType.snippet, BlockType.vcl]

/-- Whether a block's configuration set changed (`d.HasChange(key)`). -/
def blockChanged (st : ResourceState) (bt : BlockType) : Bool :=
  decide (st.oldBlock bt ≠ st.newBlock bt)

/-- The `needsChange` flag of `resourceServiceV1Update`: true when any of
the versioned attributes (the 21 blocks, `default_host`, `default_ttl`)
changed. -/
def needsChange (st : ResourceState) : Bool :=
  needsChangeBlocks.any (blockChanged st)
  || decide (st.oldDefaultHost ≠ st.newDefaultHost)
  || decide (st.oldDefaultTTL ≠ st.newDefaultTTL)

/-- The error outcome of `resourceServiceV1Update`: a raw client error
returned as-is, or one of the three wrapped errors of the
validate/activate tail. -/
inductive UpdErr
  | api (e : ApiErr)
  | validateCheck (e : ApiErr)
  | invalidConfig (msg : String)
  | activateFailed (e : ApiErr)
deriving DecidableEq, Repr

/-- What an update run produces: the calls issued in order, the error it
returns (`none` = success), and the value written to `active_version` by
`d.Set` (`none` when that write never happens). -/
structure UpdateOutcome where
  trace : List ApiCall
  err : Option UpdErr
  activeVersionSet : Option Nat
deriving DecidableEq, Repr

/-- The opening `UpdateService` step: issued iff name or comment changed;
its error aborts. -/
def svcUpdateStep (o : Oracle) (st : ResourceState) :
    List ApiCall × Option ApiErr :=
  if st.oldName ≠ st.newName ∨ st.oldComment ≠ st.newComment then
    match o.updateServiceRes with
    | some e => ([ApiCall.updateService st.newName st.newComment], some e)
    | none => ([ApiCall.updateService st.newName st.newComment], none)
  else ([], none)

/-- The `version_comment`-only step, taken when `version_comment` changed
and `needsChange` is false: `UpdateVersion` on the recorded active version
(or 1 when none was ever activated). -/
def versionCommentOnlyStep (o : Oracle) (st : ResourceState) :
    List ApiCall × Option ApiErr :=
  if st.oldVersionComment ≠ st.newVersionComment then
    let v := if st.activeVersion = 0 then 1 else st.activeVersion
    match o.updateVersionRes v with
    | some e => ([ApiCall.updateVersion v st.newVersionComment], some e)
    | none => ([ApiCall.updateVersion v st.newVersionComment], none)
  else ([], none)

/-- The comment update on the freshly cloned version, issued when
`version_comment` is nonempty (only on the clone branch). -/
def cloneCommentStep (o : Oracle) (st : ResourceState) (v : Nat) :
    List ApiCall × Option ApiErr :=
  if st.newVersionComment ≠ "" then
    match o.updateVersionRes v with
    | some e => ([ApiCall.updateVersion v st.newVersionComment], some e)
    | none => ([ApiCall.updateVersion v st.newVersionComment], none)
  else ([], none)

/-- The `UpdateSettings` step: issued iff `default_host` or `default_ttl`
changed, against the working version. -/
def settingsStep (o : Oracle) (st : ResourceState) (v : Nat) :
    List ApiCall × Option ApiErr :=
  if st.oldDefaultHost ≠ st.newDefaultHost ∨ st.oldDefaultTTL ≠ st.newDefaultTTL then
    match o.updateSettingsRes with
    | some e =>
      ([ApiCall.updateSettings v st.newDefaultHost st.newDefaultTTL], some e)
    | none =>
      ([ApiCall.updateSettings v st.newDefaultHost st.newDefaultTTL], none)
  else ([], none)

/-- All mutations against the working version `v`: the settings step, then
the 21 block reconciliations in `processOrder`; the first error aborts. -/
def versionMutations (o : Oracle) (st : ResourceState) (v : Nat) :
    List ApiCall × Option ApiErr :=
  let s := settingsStep o st v
  match s.snd with
  | some e => (s.fst, some e)
  | none =>
    let b := processBlocks o st v processOrder
    (s.fst ++ b.fst, b.snd)

/-- The validate/activate tail on the working version `v`: `ValidateVersion`
(an error or an invalid result aborts with a wrapped error), then, when the
`activate` flag is set, `ActivateVersion`, and only on its success the
`d.Set("active_version", v)` write. -/
def finishVersion (o : Oracle) (st : ResourceState) (v : Nat) : UpdateOutcome :=
  match o.validateRes with
  | Except.error e =>
    ⟨[ApiCall.validateVersion v], some (UpdErr.validateCheck e), none⟩
  | Except.ok (valid, msg) =>
    if valid then
      if st.activate then
        match o.activateRes with
        | some e =>
          ⟨[ApiCall.validateVersion v, ApiCall.activateVersion v],
           some (UpdErr.activateFailed e), none⟩
        | none =>
          ⟨[ApiCall.validateVersion v, ApiCall.activateVersion v], none, some v⟩
      else ⟨[ApiCall.validateVersion v], none, none⟩
    else ⟨[ApiCall.validateVersion v], some (UpdErr.invalidConfig msg), none⟩

/-- The whole work on the working version `v`: mutations, then the
validate/activate tail. -/
def runVersionChanges (o : Oracle) (st : ResourceState) (v : Nat) : UpdateOutcome :=
  let m := versionMutations o st v
  match m.snd with
  | some e => ⟨m.fst, some (UpdErr.api e), none⟩
  | none =>
    let f := finishVersion o st v
    ⟨m.fst ++ f.trace, f.err, f.activeVersionSet⟩

/-- `resourceServiceV1Update` (src/fastly/resource_fastly_service_v1.go):
optional `UpdateService`; when `needsChange`, either work directly on
version 1 (active version 0, the service was just created) or clone the
active version, optionally update the clone's comment, and work on the
clone; when not `needsChange`, at most the `version_comment`-only update.
The trailing `resourceServiceV1Read` refresh of the success path issues
only list/get calls and is modelled separately by `resourceServiceV1Read`
below. -/
def resourceServiceV1Update (o : Oracle) (st : ResourceState) : UpdateOutcome :=
  let sc := svcUpdateStep o st
  match sc.snd with
  | some e => ⟨sc.fst, some (UpdErr.api e), none⟩
  | none =>
    if needsChange st then
      if st.activeVersion = 0 then
        let r := runVersionChanges o st 1
        ⟨sc.fst ++ r.trace, r.err, r.activeVersionSet⟩
      else
        match o.cloneRes with
        | Except.error e =>
          ⟨sc.fst ++ [ApiCall.cloneVersion st.activeVersion],
           some (UpdErr.api e), none⟩
        | Except.ok n =>
          let cc := cloneCommentStep o st n
          match cc.snd with
          | some e =>
            ⟨sc.fst ++ ApiCall.cloneVersion st.activeVersion :: cc.fst,
             some (UpdErr.api e), none⟩
          | none =>
            let r := runVersionChanges o st n
            ⟨sc.fst ++ ApiCall.cloneVersion st.activeVersion :: (cc.fst ++ r.trace),
             r.err, r.activeVersionSet⟩
    else
      let vc := versionCommentOnlyStep o st
      match vc.snd with
      | some e => ⟨sc.fst ++ vc.fst, some (UpdErr.api e), none⟩
      | none => ⟨sc.fst ++ vc.fst, none, none⟩

/-- The version number a call is addressed to (`none` for the unversioned
`UpdateService`); for `CloneVersion` it is the version being cloned. -/
def callVersion : ApiCall → Option Nat
  | ApiCall.updateService _ _ => none
  | ApiCall.updateVersion v _ => some v
  | ApiCall.cloneVersion v => some v
  | ApiCall.updateSettings v _ _ => some v
  | ApiCall.deleteElem _ v _ => some v
  | ApiCall.createElem _ v _ => some v
  | ApiCall.createDirectorBackend v _ _ => some v
  | ApiCall.activateVCL v _ => some v
  | ApiCall.validateVersion v => some v
  | ApiCall.activateVersion v => some v

/-- The block type a call belongs to: the per-type delete/create endpoints,
plus the director-backend and vcl-activation extras. -/
def blockOf : ApiCall → Option BlockType
  | ApiCall.deleteElem bt _ _ => some bt
  | ApiCall.createElem bt _ _ => some bt
  | ApiCall.createDirectorBackend _ _ _ => some BlockType.director
  | ApiCall.activateVCL _ _ => some BlockType.vcl
  | _ => none

/-- The mutation calls of claim C4: sub-resource deletes, sub-resource
creates (including the director-backend and vcl-activation extras) and the
settings update. -/
def isC4Mutation : ApiCall → Bool
  | ApiCall.updateSettings _ _ _ => true
  | ApiCall.deleteElem _ _ _ => true
  | ApiCall.createElem _ _ _ => true
  | ApiCall.createDirectorBackend _ _ _ => true
  | ApiCall.activateVCL _ _ => true
  | _ => false

/-- Every call that mutates the content of a version: the C4 mutations plus
the version-comment update. -/
def isVersionedMutation : ApiCall → Bool
  | ApiCall.updateVersion _ _ => true
  | c => isC4Mutation c

/-- Whether a call is a sub-resource delete. -/
def isDeleteCall : ApiCall → Bool
  | ApiCall.deleteElem _ _ _ => true
  | _ => false

/-- The element created by a `createElem` call, if any. -/
def createdElem : ApiCall → Option Elem
  | ApiCall.createElem _ _ e => some e
  | _ => none

/-- Whether a call is one of the in-place update endpoints reachable from
the embedded update (`UpdateService`, `UpdateVersion`, `UpdateSettings`);
no per-element update endpoint exists among the calls the engine issues. -/
def isInPlaceUpdate : ApiCall → Bool
  | ApiCall.updateService _ _ => true
  | ApiCall.updateVersion _ _ => true
  | ApiCall.updateSettings _ _ _ => true
  | _ => false

/-- The one-item `waf` block element (`block_fastly_service_v1_waf.go`):
`waf_id`, `prefetch_condition`, `response_object`. -/
structure WafElem where
  wafID : String
  prefetchCondition : String
  responseObject : String
deriving DecidableEq, Repr

/-- The remote calls `processWAF` can issue.  The source addresses them to
`strconv.Itoa(version)`, hence the string version field. -/
inductive WafCall
  | getWAF (version : String) (id : String)
  | createWAF (version : String) (id prefetch resp : String)
  | updateWAF (version : String) (id prefetch resp : String)
  | deleteWAF (version : String) (id : String)
deriving DecidableEq, Repr

/-- The oracle for `processWAF`: whether `GetWAF` finds the WAF, what
`CreateWAF` returns (the fresh WAF id), and the update/delete results. -/
structure WafOracle where
  getWAFExists : Bool
  createWAFRes : Except ApiErr String
  updateWAFRes : Option ApiErr
  deleteWAFRes : Option ApiErr

/-- `processWAF` (block_fastly_service_v1_waf.go): when the block is present
in both old and new configuration, check existence with `GetWAF`, create it
if missing (recording the fresh id in the block map), then issue `UpdateWAF`
in place; when only new is present, create; when only old is present, delete
(tolerating a 404); otherwise do nothing. -/
def processWAF (o : WafOracle) (oldW newW : List WafElem) (v : Nat) :
    List WafCall × Option ApiErr :=
  let sv := toString v
  match oldW, newW with
  | _ :: _, w :: _ =>
    let getCall := WafCall.getWAF sv w.wafID
    if o.getWAFExists then
      match o.updateWAFRes with
      | some e =>
        ([getCall, WafCall.updateWAF sv w.wafID w.prefetchCondition w.responseObject],
         some e)
      | none =>
        ([getCall, WafCall.updateWAF sv w.wafID w.prefetchCondition w.responseObject],
         none)
    else
      match o.createWAFRes with
      | Except.error e =>
        ([getCall, WafCall.createWAF sv w.wafID w.prefetchCondition w.responseObject],
         some e)
      | Except.ok newId =>
        match o.updateWAFRes with
        | some e =>
          ([getCall,
            WafCall.createWAF sv w.wafID w.prefetchCondition w.responseObject,
            WafCall.updateWAF sv newId w.prefetchCondition w.responseObject],
           some e)
        | none =>
          ([getCall,
            WafCall.createWAF sv w.wafID w.prefetchCondition w.responseObject,
            WafCall.updateWAF sv newId w.prefetchCondition w.responseObject],
           none)
  | [], w :: _ =>
    match o.createWAFRes with
    | Except.error e =>
      ([WafCall.createWAF sv w.wafID w.prefetchCondition w.responseObject], some e)
    | Except.ok _ =>
      ([WafCall.createWAF sv w.wafID w.prefetchCondition w.responseObject], none)
  | w :: _, [] =>
    match o.deleteWAFRes with
    | some e =>
      if e = ApiErr.http 404 then ([WafCall.deleteWAF sv w.wafID], none)
      else ([WafCall.deleteWAF sv w.wafID], some e)
    | none => ([WafCall.deleteWAF sv w.wafID], none)
  | [], [] => ([], none)

/-- One entry of the `ListServices` response; only the ID is consulted by
`findService`. -/
structure FService where
  id : String
deriving DecidableEq, Repr

/-- The slice of `GetServiceDetails` that `resourceServiceV1Read` consults. -/
structure ServiceDetail where
  name : String
  comment : String
  versionComment : String
  activeVersionNumber : Nat
deriving DecidableEq, Repr

/-- A sub-resource element as returned by the per-type List endpoints; the
`dynamic` field is meaningful only for snippets (dynamic snippets are
skipped by `flattenSnippets`). -/
structure RemoteElem where
  name : String
  payload : String
  backends : List String
  main : Bool
  dynamic : Nat
deriving DecidableEq, Repr

/-- The projection of a listed remote element onto the stored block shape. -/
def remoteToElem (r : RemoteElem) : Elem :=
  ⟨r.name, r.payload, r.backends, r.main⟩

/-- The per-type flatten step of the read path (flattenDomains,
flattenSnippets, ...): a plain projection onto the stored map, except that
`flattenSnippets` drops dynamic snippets (`Dynamic == 1`). -/
def flattenBlock (bt : BlockType) (l : List RemoteElem) : List Elem :=
  match bt with
  | BlockType.snippet => (l.filter (fun r => decide (r.dynamic ≠ 1))).map remoteToElem
  | _ => l.map remoteToElem

/-- The remote API as seen by the read path: the `ListServices` response,
the service details, the settings of a version, and the per-type list of a
version. -/
structure ReadOracle where
  listServicesRes : Except ApiErr (List FService)
  detailsRes : Except ApiErr ServiceDetail
  settingsRes : Except ApiErr (String × Nat)
  listBlockRes : BlockType → Nat → Except ApiErr (List RemoteElem)

/-- The error outcome of `findService`: a failed `ListServices`, or the
`fastlyNoServiceFoundErr` sentinel. -/
inductive FindErr
  | listFailed (e : ApiErr)
  | noServiceFound
deriving DecidableEq, Repr

/-- `findService` (src/fastly/resource_fastly_service_v1.go): list all
services and search the response for the ID; a `ListServices` error is
returned wrapped, and an absent ID yields `fastlyNoServiceFoundErr`. -/
def findService (o : ReadOracle) (id : String) : Except FindErr FService :=
  match o.listServicesRes with
  | Except.error e => Except.error (FindErr.listFailed e)
  | Except.ok l =>
    match l.find? (fun s => s.id == id) with
    | some s => Except.ok s
    | none => Except.error FindErr.noServiceFound

/-- The error outcome of `resourceServiceV1Read`. -/
inductive ReadErr
  | findFailed (e : ApiErr)
  | detailsFailed (e : ApiErr)
  | settingsFailed (e : ApiErr)
  | listFailed (bt : BlockType) (e : ApiErr)
deriving DecidableEq, Repr

/-- The stored Terraform state of the service resource that the read path
writes: identity, metadata, settings, and one element list per block. -/
structure StoredState where
  id : String
  name : String
  comment : String
  versionComment : String
  activeVersion : Nat
  defaultHost : String
  defaultTTL : Nat
  blocks : BlockType → List Elem

/-- The order in which `resourceServiceV1Read` refreshes the blocks
(source order of the refresh sections). -/
def readOrder : List BlockType :=
  [BlockType.domain, BlockType.backend, BlockType.director, BlockType.header,
   BlockType.gzip, BlockType.healthcheck, BlockType.s3logging,
   BlockType.papertrail, BlockType.sumologic, BlockType.gcslogging,
   BlockType.bigquerylogging, BlockType.syslog, BlockType.logentries,
   BlockType.splunk, BlockType.blobstoragelogging, BlockType.response_object,
   BlockType.condition, BlockType.request_setting, BlockType.vcl,
   BlockType.snippet, BlockType.cache_setting]

/-- The per-block refresh loop of the read path: list the block type at
version `v`, flatten, and store (a `d.Set` failure is only logged in the
source, so storing never fails); a List error aborts with the blocks
refreshed so far kept. -/
def refreshBlocks (o : ReadOracle) (v : Nat) :
    (BlockType → List Elem) → List BlockType →
    (BlockType → List Elem) × Option ReadErr
  | blocks, [] => (blocks, none)
  | blocks, bt :: rest =>
    match o.listBlockRes bt v with
    | Except.error e => (blocks, some (ReadErr.listFailed bt e))
    | Except.ok l =>
      refreshBlocks o v
        (fun b => if b = bt then flattenBlock bt l else blocks b) rest

/-- `resourceServiceV1Read` (src/fastly/resource_fastly_service_v1.go):
search for the service (an absent service clears the resource ID and
returns success); fetch the details and store name/comment/version
comment/active version; when the remote active version is nonzero, fetch
the settings and refresh every block from its List endpoint at that
version; when it is zero, refresh nothing further. -/
def resourceServiceV1Read (o : ReadOracle) (st : StoredState) :
    StoredState × Option ReadErr :=
  match findService o st.id with
  | Except.error (FindErr.listFailed e) => (st, some (ReadErr.findFailed e))
  | Except.error FindErr.noServiceFound => ({ st with id := "" }, none)
  | Except.ok _ =>
    match o.detailsRes with
    | Except.error e => (st, some (ReadErr.detailsFailed e))
    | Except.ok s =>
      let st1 := { st with
        name := s.name, comment := s.comment,
        versionComment := s.versionComment,
        activeVersion := s.activeVersionNumber }
      if s.activeVersionNumber ≠ 0 then
        match o.settingsRes with
        | Except.error e => (st1, some (ReadErr.settingsFailed e))
        | Except.ok (dh, dttl) =>
          let st2 := { st1 with defaultHost := dh, defaultTTL := dttl }
          let r := refreshBlocks o s.activeVersionNumber st2.blocks readOrder
          ({ st2 with blocks := r.fst }, r.snd)
      else (st1, none)

/-- The sub-resource block keys registered in the `resourceServiceV1` schema
of src/fastly/resource_fastly_service_v1.go, in source order. -/
def registeredBlockKeysV1 : List String :=
  ["domain", "condition", "healthcheck", "backend", "director",
   "cache_setting", "gzip", "header", "s3logging", "papertrail",
   "sumologic", "gcslogging", "bigquerylogging", "syslog", "logentries",
   "splunk", "blobstoragelogging", "response_object", "request_setting",
   "vcl", "snippet"]

/-- The attribute keys of the `needsChange` loop of
src/fastly/resource_fastly_service_v1.go, in source order. -/
def needsChangeKeysV1 : List String :=
  ["domain", "backend", "default_host", "default_ttl", "director", "header",
   "gzip", "healthcheck", "s3logging", "papertrail", "gcslogging",
   "bigquerylogging", "syslog", "sumologic", "logentries", "splunk",
   "blobstoragelogging", "response_object", "condition", "request_setting",
   "cache_setting", "snippet", "vcl"]

/-- The sub-resource block keys registered in the `resourceServiceV1` schema
of the alternative copy of the service resource (src/unnamed/part_008), in
source order. -/
def registeredBlockKeysAlt : List String :=
  ["domain", "condition", "healthcheck", "backend", "director",
   "cache_setting", "gzip", "header", "s3logging", "papertrail",
   "sumologic", "gcslogging", "bigquerylogging", "syslog", "logentries",
   "splunk", "blobstoragelogging", "httpslogging", "response_object",
   "request_setting", "vcl", "snippet", "dynamicsnippet", "acl",
   "dictionary"]

/-- The attribute keys of the `needsChange` loop of src/unnamed/part_008,
in source order. -/
def needsChangeKeysAlt : List String :=
  ["domain", "backend", "default_host", "default_ttl", "director", "header",
   "gzip", "healthcheck", "s3logging", "papertrail", "gcslogging",
   "bigquerylogging", "syslog", "sumologic", "logentries", "splunk",
   "blobstoragelogging", "httpslogging", "response_object", "condition",
   "request_setting", "cache_setting", "snippet", "dynamicsnippet", "vcl",
   "acl", "dictionary"]

/-- Modelled from the spec: the spec's enumeration of engine-covered types
ends with "ACLs, dictionaries, WAF", and the acceptance test
`block_fastly_service_v1_waf_test.go` configures a `waf` block inside
`resource "fastly_service_v1"`, but the schema-registration line that wires
`WAFSchema` and `processWAF` into the service resource is in code absent
from src/ (only `block_fastly_service_v1_waf.go` and its test are present).
This definition records that registration as the spec describes it. -/
def wafRegisteredKeysSpec : List String := ["waf"]

/-- The nine logging-endpoint block keys of the service schema. -/
def loggingKeys : List String :=
  ["s3logging", "papertrail", "sumologic", "gcslogging", "bigquerylogging",
   "syslog", "logentries", "splunk", "blobstoragelogging"]

/-- Sample elements for concrete runs. -/
def elemA : Elem := ⟨"a", "pa", [], false⟩

/-- Sample element b. -/
def elemB : Elem := ⟨"b", "pb", [], false⟩

/-- Sample element c. -/
def elemC : Elem := ⟨"c", "pc", [], false⟩

/-- An all-success oracle: the clone yields version 7, validation reports
valid, every mutation succeeds. -/
def oracleOk : Oracle :=
  ⟨none, fun _ => none, Except.ok 7, none, fun _ _ => none, fun _ _ => none,
   fun _ _ => none, fun _ => none, Except.ok (true, ""), none⟩

/-- A state whose only change is in the condition block (old a,b; new b,c),
with recorded active version 5 and the activate flag set. -/
def stCond : ResourceState :=
  { id := "srv1", oldName := "svc", newName := "svc", oldComment := "cm",
    newComment := "cm", oldVersionComment := "", newVersionComment := "",
    activeVersion := 5, activate := true, oldDefaultHost := "h",
    newDefaultHost := "h", oldDefaultTTL := 3600, newDefaultTTL := 3600,
    oldBlock := fun bt => if bt = BlockType.condition then [elemA, elemB] else [],
    newBlock := fun bt => if bt = BlockType.condition then [elemB, elemC] else [] }

/-- The same change on a fresh service (no version ever activated). -/
def stCondFresh : ResourceState := { stCond with activeVersion := 0 }

/-- An oracle whose `ValidateVersion` reports the configuration invalid. -/
def oracleInvalid : Oracle :=
  { oracleOk with validateRes := Except.ok (false, "boom") }

/-- An oracle whose delete endpoint 404s on element a and fails with a 500
on element b. -/
def oracleDel : Oracle :=
  { oracleOk with
    deleteRes := fun _ nm =>
      if nm = "a" then some (ApiErr.http 404)
      else if nm = "b" then some (ApiErr.http 500) else none }

/-- A WAF oracle: the WAF exists and every mutation succeeds. -/
def wafOracleOk : WafOracle :=
  ⟨true, Except.ok "fresh", none, none⟩

/-- The old and new value of the waf block in a run that modifies it. -/
def wafOld : WafElem := ⟨"wid", "pc1", "ro1"⟩

/-- The new waf block value. -/
def wafNew : WafElem := ⟨"wid", "pc2", "ro2"⟩

/-- A remote element list for concrete read runs: one ordinary element and
one dynamic element (the latter is dropped when the block is a snippet). -/
def remoteListEx : List RemoteElem :=
  [⟨"r1", "q1", [], false, 0⟩, ⟨"r2", "q2", [], false, 1⟩]

/-- A read oracle for a service that exists, has active version 4, and
answers every list with `remoteListEx`. -/
def readOracleOk : ReadOracle :=
  ⟨Except.ok [⟨"srv1"⟩], Except.ok ⟨"svc", "cm", "vcm", 4⟩,
   Except.ok ("h", 3600), fun _ _ => Except.ok remoteListEx⟩

/-- The same remote, but the service details report active version 0. -/
def readOracleFresh : ReadOracle :=
  { readOracleOk with detailsRes := Except.ok ⟨"svc", "cm", "vcm", 0⟩ }

/-- A read oracle whose `ListServices` response does not contain "srv1". -/
def readOracleGone : ReadOracle :=
  { readOracleOk with listServicesRes := Except.ok [⟨"other"⟩] }

/-- A stored state to read into. -/
def storedEx : StoredState :=
  { id := "srv1", name := "old", comment := "old", versionComment := "old",
    activeVersion := 3, defaultHost := "oldh", defaultTTL := 60,
    blocks := fun _ => [elemA] }

/-- An element before an in-place modification (same name, old payload). -/
def elemAmod1 : Elem := ⟨"a", "p1", [], false⟩

/-- The same element after the modification (same name, new payload). -/
def elemAmod2 : Elem := ⟨"a", "p2", [], false⟩

/-- A state whose condition block holds one element that was modified in
place (name kept, payload changed). -/
def stMod : ResourceState :=
  { stCond with
    oldBlock := fun bt => if bt = BlockType.condition then [elemAmod1] else [],
    newBlock := fun bt => if bt = BlockType.condition then [elemAmod2] else [] }

/-- The schema key of each reconciled block type, as registered in the
`resourceServiceV1` schema map. -/
def blockKey : BlockType → String
  | BlockType.condition => "condition"
  | BlockType.domain => "domain"
  | BlockType.healthcheck => "healthcheck"
  | BlockType.backend => "backend"
  | BlockType.director => "director"
  | BlockType.header => "header"
  | BlockType.gzip => "gzip"
  | BlockType.s3logging => "s3logging"
  | BlockType.papertrail => "papertrail"
  | BlockType.sumologic => "sumologic"
  | BlockType.gcslogging => "gcslogging"
  | BlockType.bigquerylogging => "bigquerylogging"
  | BlockType.syslog => "syslog"
  | BlockType.logentries => "logentries"
  | BlockType.splunk => "splunk"
  | BlockType.blobstoragelogging => "blobstoragelogging"
  | BlockType.response_object => "response_object"
  | BlockType.request_setting => "request_setting"
  | BlockType.vcl => "vcl"
  | BlockType.snippet => "snippet"
  | BlockType.cache_setting => "cache_setting"

/-- The set-difference of a list with itself is empty. -/
theorem setDiff_self (l : List Elem) : setDiff l l = [] := by
  simp [setDiff]

/-- A delete loop over elements whose results are all nil or 404 issues one
delete call per element and succeeds. -/
theorem runDeletes_ok (o : Oracle) (bt : BlockType) (v : Nat) (es : List Elem)
    (h : ∀ e ∈ es, o.deleteRes bt e.name = none ∨
      o.deleteRes bt e.name = some (ApiErr.http 404)) :
    runDeletes o bt v es =
      (es.map (fun e => ApiCall.deleteElem bt v e.name), none) := by
  induction es with
  | nil => simp [runDeletes]
  | cons e rest ih =>
    have he := h e (List.mem_cons_self e rest)
    have hr := ih (fun x hx => h x (List.mem_cons_of_mem e hx))
    rcases he with he | he <;> simp [runDeletes, he, hr]

/-- A non-404 delete error aborts the delete loop right after the failed
call, with that error. -/
theorem runDeletes_abort (o : Oracle) (bt : BlockType) (v : Nat)
    (pre : List Elem) (e : Elem) (rest : List Elem) (err : ApiErr)
    (hpre : ∀ x ∈ pre, o.deleteRes bt x.name = none ∨
      o.deleteRes bt x.name = some (ApiErr.http 404))
    (he : o.deleteRes bt e.name = some err) (hne : err ≠ ApiErr.http 404) :
    runDeletes o bt v (pre ++ e :: rest) =
      (pre.map (fun x => ApiCall.deleteElem bt v x.name) ++
        [ApiCall.deleteElem bt v e.name], some err) := by
  induction pre with
  | nil => simp [runDeletes, he, hne]
  | cons x xs ih =>
    have hx := hpre x (List.mem_cons_self x xs)
    have hr := ih (fun y hy => hpre y (List.mem_cons_of_mem x hy))
    rcases hx with hx | hx <;> simp [runDeletes, hx, hr]

/-- A successful delete loop issued exactly one delete call per element. -/
theorem runDeletes_fst_of_ok (o : Oracle) (bt : BlockType) (v : Nat)
    (es : List Elem) (h : (runDeletes o bt v es).snd = none) :
    (runDeletes o bt v es).fst =
      es.map (fun e => ApiCall.deleteElem bt v e.name) := by
  induction es with
  | nil => simp [runDeletes]
  | cons e rest ih =>
    revert h
    cases hres : o.deleteRes bt e.name with
    | none =>
      intro h
      simp [runDeletes, hres] at h ⊢
      exact ih h
    | some err =>
      by_cases h404 : err = ApiErr.http 404
      · intro h
        simp [runDeletes, hres, h404] at h ⊢
        exact ih h
      · intro h
        simp [runDeletes, hres, h404] at h

/-- Every call of the delete loop is a delete of this block at this
version. -/
theorem runDeletes_mem (o : Oracle) (bt : BlockType) (v : Nat)
    (es : List Elem) :
    ∀ c ∈ (runDeletes o bt v es).fst, ∃ nm, c = ApiCall.deleteElem bt v nm := by
  induction es with
  | nil => simp [runDeletes]
  | cons e rest ih =>
    intro c hc
    cases hres : o.deleteRes bt e.name with
    | none =>
      simp [runDeletes, hres] at hc
      rcases hc with rfl | hc
      · exact ⟨e.name, rfl⟩
      · exact ih c hc
    | some err =>
      by_cases h404 : err = ApiErr.http 404
      · simp [runDeletes, hres, h404] at hc
        rcases hc with rfl | hc
        · exact ⟨e.name, rfl⟩
        · exact ih c hc
      · simp [runDeletes, hres, h404] at hc
        subst hc
        exact ⟨e.name, rfl⟩

/-- Every call of the director-backend loop is a `createDirectorBackend`
for that director at this version. -/
theorem runDirectorBackends_mem (o : Oracle) (v : Nat) (dir : String)
    (bs : List String) :
    ∀ c ∈ (runDirectorBackends o v dir bs).fst,
      ∃ b, c = ApiCall.createDirectorBackend v dir b := by
  induction bs with
  | nil => simp [runDirectorBackends]
  | cons b rest ih =>
    intro c hc
    cases hres : o.createDirectorBackendRes dir b with
    | some err =>
      simp [runDirectorBackends, hres] at hc
      subst hc
      exact ⟨b, rfl⟩
    | none =>
      simp [runDirectorBackends, hres] at hc
      rcases hc with rfl | hc
      · exact ⟨b, rfl⟩
      · exact ih c hc

/-- Every extra call after a create belongs to this block and version, is a
C4 mutation, is not a delete and creates no element. -/
theorem createExtras_mem (o : Oracle) (bt : BlockType) (v : Nat) (e : Elem) :
    ∀ c ∈ (createExtras o bt v e).fst,
      blockOf c = some bt ∧ callVersion c = some v ∧ isC4Mutation c = true ∧
      isDeleteCall c = false ∧ createdElem c = none := by
  intro c hc
  by_cases hd : bt = BlockType.director
  · subst hd
    simp [createExtras] at hc
    obtain ⟨b, rfl⟩ := runDirectorBackends_mem o v e.name e.backends c hc
    simp [blockOf, callVersion, isC4Mutation, isDeleteCall, createdElem]
  · by_cases hv : bt = BlockType.vcl
    · subst hv
      by_cases hm : e.main
      · cases hres : o.activateVCLRes e.name <;>
          simp [createExtras, hd, hm, hres] at hc <;>
          subst hc <;>
          simp [blockOf, callVersion, isC4Mutation, isDeleteCall, createdElem]
      · simp [createExtras, hd, hm] at hc
    · simp [createExtras, hd, hv] at hc

/-- Every call of the create loop belongs to this block and version, is a
C4 mutation and is not a delete. -/
theorem runCreates_mem (o : Oracle) (bt : BlockType) (v : Nat)
    (es : List Elem) :
    ∀ c ∈ (runCreates o bt v es).fst,
      blockOf c = some bt ∧ callVersion c = some v ∧ isC4Mutation c = true ∧
      isDeleteCall c = false := by
  induction es with
  | nil => simp [runCreates]
  | cons e rest ih =>
    intro c hc
    cases hres : o.createRes bt e with
    | some err =>
      simp [runCreates, hres] at hc
      subst hc
      simp [blockOf, callVersion, isC4Mutation, isDeleteCall]
    | none =>
      cases hex : (createExtras o bt v e).snd with
      | some err =>
        simp [runCreates, hres, hex] at hc
        rcases hc with rfl | hc
        · simp [blockOf, callVersion, isC4Mutation, isDeleteCall]
        · have h := createExtras_mem o bt v e c hc
          exact ⟨h.1, h.2.1, h.2.2.1, h.2.2.2.1⟩
      | none =>
        simp [runCreates, hres, hex] at hc
        rcases hc with rfl | hc | hc
        · simp [blockOf, callVersion, isC4Mutation, isDeleteCall]
        · have h := createExtras_mem o bt v e c hc
          exact ⟨h.1, h.2.1, h.2.2.1, h.2.2.2.1⟩
        · exact ih c hc

/-- A successful create loop created exactly the given elements, in order. -/
theorem runCreates_filterMap (o : Oracle) (bt : BlockType) (v : Nat)
    (es : List Elem) (h : (runCreates o bt v es).snd = none) :
    (runCreates o bt v es).fst.filterMap createdElem = es := by
  induction es with
  | nil => simp [runCreates]
  | cons e rest ih =>
    revert h
    cases hres : o.createRes bt e with
    | some err =>
      intro h
      simp [runCreates, hres] at h
    | none =>
      cases hex : (createExtras o bt v e).snd with
      | some err =>
        intro h
        simp [runCreates, hres, hex] at h
      | none =>
        intro h
        simp [runCreates, hres, hex] at h
        have hextras : (createExtras o bt v e).fst.filterMap createdElem = [] :=
          List.filterMap_eq_nil_iff.mpr
            (fun c hc => (createExtras_mem o bt v e c hc).2.2.2.2)
        simp [runCreates, hres, hex, createdElem, List.filterMap_append,
          hextras, ih h]

/-- A block whose configuration did not change reconciles to no calls. -/
theorem processBlock_unchanged (o : Oracle) (st : ResourceState)
    (bt : BlockType) (v : Nat) (h : st.oldBlock bt = st.newBlock bt) :
    processBlock o st bt v = ([], none) := by
  simp [processBlock, h, setDiff_self, runDeletes, runCreates]

/-- Every call of one block reconciliation belongs to that block, targets
the working version, and is a C4 mutation. -/
theorem processBlock_mem (o : Oracle) (st : ResourceState) (bt : BlockType)
    (v : Nat) :
    ∀ c ∈ (processBlock o st bt v).fst,
      blockOf c = some bt ∧ callVersion c = some v ∧ isC4Mutation c = true := by
  intro c hc
  cases hd : (runDeletes o bt v (setDiff (st.oldBlock bt) (st.newBlock bt))).snd with
  | some err =>
    simp [processBlock, hd] at hc
    obtain ⟨nm, rfl⟩ := runDeletes_mem o bt v _ c hc
    simp [blockOf, callVersion, isC4Mutation]
  | none =>
    simp [processBlock, hd] at hc
    rcases hc with hc | hc
    · obtain ⟨nm, rfl⟩ := runDeletes_mem o bt v _ c hc
      simp [blockOf, callVersion, isC4Mutation]
    · have h := runCreates_mem o bt v _ c hc
      exact ⟨h.1, h.2.1, h.2.2.1⟩

/-- A successful block reconciliation issues exactly one delete per element
of `old.Difference(new)`, in set order, followed by a create phase that
creates exactly the elements of `new.Difference(old)` and contains no
delete call. -/
theorem processBlock_ok (o : Oracle) (st : ResourceState) (bt : BlockType)
    (v : Nat) (h : (processBlock o st bt v).snd = none) :
    ∃ crs, (processBlock o st bt v).fst =
        (setDiff (st.oldBlock bt) (st.newBlock bt)).map
          (fun e => ApiCall.deleteElem bt v e.name) ++ crs
      ∧ crs.filterMap createdElem = setDiff (st.newBlock bt) (st.oldBlock bt)
      ∧ ∀ c ∈ crs, isDeleteCall c = false := by
  cases hd : (runDeletes o bt v (setDiff (st.oldBlock bt) (st.newBlock bt))).snd with
  | some err => simp [processBlock, hd] at h
  | none =>
    have hdf := runDeletes_fst_of_ok o bt v _ hd
    have hcs : (runCreates o bt v (setDiff (st.newBlock bt) (st.oldBlock bt))).snd = none := by
      simp [processBlock, hd] at h
      exact h
    refine ⟨(runCreates o bt v (setDiff (st.newBlock bt) (st.oldBlock bt))).fst,
      ?_, runCreates_filterMap o bt v _ hcs, ?_⟩
    · simp [processBlock, hd, hdf]
    · intro c hc
      exact (runCreates_mem o bt v _ c hc).2.2.2

/-- Every call of the block-sequence reconciliation belongs to one of the
listed blocks, targets the working version, and is a C4 mutation. -/
theorem processBlocks_mem (o : Oracle) (st : ResourceState) (v : Nat)
    (bts : List BlockType) :
    ∀ c ∈ (processBlocks o st v bts).fst,
      ∃ bt ∈ bts, blockOf c = some bt ∧ callVersion c = some v ∧
        isC4Mutation c = true := by
  induction bts with
  | nil => simp [processBlocks]
  | cons bt rest ih =>
    intro c hc
    by_cases heq : st.oldBlock bt = st.newBlock bt
    · simp [processBlocks, heq] at hc
      obtain ⟨b, hb, h⟩ := ih c hc
      exact ⟨b, List.mem_cons_of_mem bt hb, h⟩
    · cases hr : (processBlock o st bt v).snd with
      | some e =>
        simp [processBlocks, heq, hr] at hc
        exact ⟨bt, List.mem_cons_self bt rest, processBlock_mem o st bt v c hc⟩
      | none =>
        simp [processBlocks, heq, hr] at hc
        rcases hc with hc | hc
        · exact ⟨bt, List.mem_cons_self bt rest, processBlock_mem o st bt v c hc⟩
        · obtain ⟨b, hb, h⟩ := ih c hc
          exact ⟨b, List.mem_cons_of_mem bt hb, h⟩

/-- When the first half of a block sequence succeeds, processing the whole
sequence is the first half's calls followed by the second half's run. -/
theorem processBlocks_append_ok (o : Oracle) (st : ResourceState) (v : Nat)
    (xs ys : List BlockType) (h : (processBlocks o st v xs).snd = none) :
    processBlocks o st v (xs ++ ys) =
      ((processBlocks o st v xs).fst ++ (processBlocks o st v ys).fst,
       (processBlocks o st v ys).snd) := by
  induction xs with
  | nil => simp [processBlocks]
  | cons bt rest ih =>
    by_cases heq : st.oldBlock bt = st.newBlock bt
    · simp [processBlocks, heq] at h ⊢
      exact ih h
    · cases hr : (processBlock o st bt v).snd with
      | some e => simp [processBlocks, heq, hr] at h
      | none =>
        simp [processBlocks, heq, hr] at h ⊢
        simp [ih h]

/-- When the first half of a block sequence aborts, the second half is
never reached. -/
theorem processBlocks_append_abort (o : Oracle) (st : ResourceState) (v : Nat)
    (xs ys : List BlockType) (e : ApiErr)
    (h : (processBlocks o st v xs).snd = some e) :
    processBlocks o st v (xs ++ ys) = processBlocks o st v xs := by
  induction xs with
  | nil => simp [processBlocks] at h
  | cons bt rest ih =>
    by_cases heq : st.oldBlock bt = st.newBlock bt
    · simp [processBlocks, heq] at h ⊢
      exact ih h
    · cases hr : (processBlock o st bt v).snd with
      | some e2 => simp [processBlocks, heq, hr]
      | none =>
        simp [processBlocks, heq, hr] at h ⊢
        simp [ih h]

/-- In a successful block-sequence run over distinct block types, the calls
belonging to one block type are exactly that block's own reconciliation
calls (empty when the block did not change). -/
theorem processBlocks_filter (o : Oracle) (st : ResourceState) (v : Nat)
    (bt : BlockType) (bts : List BlockType) (hnd : bts.Nodup)
    (h : (processBlocks o st v bts).snd = none) (hmem : bt ∈ bts) :
    (processBlocks o st v bts).fst.filter
        (fun c => decide (blockOf c = some bt)) =
      (processBlock o st bt v).fst := by
  induction bts with
  | nil => simp at hmem
  | cons b rest ih =>
    obtain ⟨hb, hndr⟩ := List.nodup_cons.mp hnd
    by_cases heq : st.oldBlock b = st.newBlock b
    · simp only [processBlocks, heq, if_pos rfl] at h
      rcases List.mem_cons.mp hmem with hbt | hbt
      · subst hbt
        rw [processBlock_unchanged o st bt v heq]
        have hskip : processBlocks o st v (bt :: rest) = processBlocks o st v rest := by
          simp [processBlocks, heq]
        rw [hskip]
        refine List.filter_eq_nil_iff.mpr (fun c hc => ?_)
        obtain ⟨b2, hb2, hbo, _⟩ := processBlocks_mem o st v rest c hc
        simp only [decide_eq_true_eq, hbo, Option.some.injEq]
        intro hco
        exact hb (hco ▸ hb2)
      · have hskip : processBlocks o st v (b :: rest) = processBlocks o st v rest := by
          simp [processBlocks, heq]
        rw [hskip]
        exact ih hndr h hbt
    · cases hr : (processBlock o st b v).snd with
      | some e =>
        have : (processBlocks o st v (b :: rest)).snd = some e := by
          simp [processBlocks, heq, hr]
        rw [this] at h
        exact absurd h (by simp)
      | none =>
        have hstep : processBlocks o st v (b :: rest) =
            ((processBlock o st b v).fst ++ (processBlocks o st v rest).fst,
             (processBlocks o st v rest).snd) := by
          simp [processBlocks, heq, hr]
        rw [hstep] at h ⊢
        simp only [List.filter_append]
        rcases List.mem_cons.mp hmem with hbt | hbt
        · subst hbt
          have h1 : (processBlock o st bt v).fst.filter
              (fun c => decide (blockOf c = some bt)) = (processBlock o st bt v).fst :=
            List.filter_eq_self.mpr (fun c hc => by
              simp [(processBlock_mem o st bt v c hc).1])
          have h2 : (processBlocks o st v rest).fst.filter
              (fun c => decide (blockOf c = some bt)) = [] :=
            List.filter_eq_nil_iff.mpr (fun c hc => by
              obtain ⟨b2, hb2, hbo, _⟩ := processBlocks_mem o st v rest c hc
              simp only [decide_eq_true_eq, hbo, Option.some.injEq]
              intro hco
              exact hb (hco ▸ hb2))
          simp [h1, h2]
        · have hne : bt ≠ b := fun hco => hb (hco ▸ hbt)
          have h1 : (processBlock o st b v).fst.filter
              (fun c => decide (blockOf c = some bt)) = [] :=
            List.filter_eq_nil_iff.mpr (fun c hc => by
              have hbo := (processBlock_mem o st b v c hc).1
              simp only [decide_eq_true_eq, hbo, Option.some.injEq]
              intro hco
              exact hne hco.symm)
          simp [h1, ih hndr h hbt]

/-- The opening service step issues at most the one `UpdateService` call. -/
theorem svcUpdateStep_shape (o : Oracle) (st : ResourceState) :
    (svcUpdateStep o st).fst = [] ∨
    (svcUpdateStep o st).fst = [ApiCall.updateService st.newName st.newComment] := by
  by_cases h : st.oldName ≠ st.newName ∨ st.oldComment ≠ st.newComment <;>
    cases hres : o.updateServiceRes <;> simp [svcUpdateStep, h, hres]

/-- The `version_comment`-only step issues at most one `UpdateVersion` on
the recorded active version (or 1 when it is zero). -/
theorem versionCommentOnlyStep_shape (o : Oracle) (st : ResourceState) :
    (versionCommentOnlyStep o st).fst = [] ∨
    (versionCommentOnlyStep o st).fst =
      [ApiCall.updateVersion (if st.activeVersion = 0 then 1 else st.activeVersion)
        st.newVersionComment] := by
  by_cases h : st.oldVersionComment ≠ st.newVersionComment <;>
    cases hres : o.updateVersionRes (if st.activeVersion = 0 then 1 else st.activeVersion) <;>
      simp [versionCommentOnlyStep, h, hres]

/-- The clone-comment step issues at most one `UpdateVersion` on the
cloned version. -/
theorem cloneCommentStep_shape (o : Oracle) (st : ResourceState) (v : Nat) :
    (cloneCommentStep o st v).fst = [] ∨
    (cloneCommentStep o st v).fst =
      [ApiCall.updateVersion v st.newVersionComment] := by
  by_cases h : st.newVersionComment ≠ "" <;>
    cases hres : o.updateVersionRes v <;> simp [cloneCommentStep, h, hres]

/-- The settings step issues at most one `UpdateSettings` on the working
version. -/
theorem settingsStep_shape (o : Oracle) (st : ResourceState) (v : Nat) :
    (settingsStep o st v).fst = [] ∨
    (settingsStep o st v).fst =
      [ApiCall.updateSettings v st.newDefaultHost st.newDefaultTTL] := by
  by_cases h : st.oldDefaultHost ≠ st.newDefaultHost ∨
      st.oldDefaultTTL ≠ st.newDefaultTTL <;>
    cases hres : o.updateSettingsRes <;> simp [settingsStep, h, hres]

/-- A C4 mutation is in particular a versioned mutation. -/
theorem isVersionedMutation_of_c4 (c : ApiCall) (h : isC4Mutation c = true) :
    isVersionedMutation c = true := by
  cases c <;> simp_all [isC4Mutation, isVersionedMutation]

/-- Every call of the mutation phase is a versioned mutation addressed to
the working version. -/
theorem versionMutations_mem (o : Oracle) (st : ResourceState) (v : Nat) :
    ∀ c ∈ (versionMutations o st v).fst,
      isVersionedMutation c = true ∧ callVersion c = some v := by
  intro c hc
  have hsettings : ∀ c2 ∈ (settingsStep o st v).fst,
      isVersionedMutation c2 = true ∧ callVersion c2 = some v := by
    intro c2 hc2
    rcases settingsStep_shape o st v with hs | hs <;> rw [hs] at hc2 <;>
      simp at hc2
    subst hc2
    simp [isVersionedMutation, isC4Mutation, callVersion]
  cases hs : (settingsStep o st v).snd with
  | some e =>
    simp [versionMutations, hs] at hc
    exact hsettings c hc
  | none =>
    simp [versionMutations, hs] at hc
    rcases hc with hc | hc
    · exact hsettings c hc
    · obtain ⟨bt, _, _, hver, hc4⟩ := processBlocks_mem o st v processOrder c hc
      exact ⟨isVersionedMutation_of_c4 c hc4, hver⟩

/-- Every call of the validate/activate tail is the `ValidateVersion` or
the `ActivateVersion` of the working version. -/
theorem finishVersion_mem (o : Oracle) (st : ResourceState) (v : Nat) :
    ∀ c ∈ (finishVersion o st v).trace,
      c = ApiCall.validateVersion v ∨ c = ApiCall.activateVersion v := by
  intro c hc
  cases hv : o.validateRes with
  | error e =>
    simp [finishVersion, hv] at hc
    subst hc
    exact Or.inl rfl
  | ok p =>
    obtain ⟨valid, msg⟩ := p
    by_cases hval : valid = true
    · by_cases hact : st.activate = true
      · cases hres : o.activateRes with
        | some e =>
          simp [finishVersion, hv, hval, hact, hres] at hc
          rcases hc with rfl | rfl
          · exact Or.inl rfl
          · exact Or.inr rfl
        | none =>
          simp [finishVersion, hv, hval, hact, hres] at hc
          rcases hc with rfl | rfl
          · exact Or.inl rfl
          · exact Or.inr rfl
      · simp [finishVersion, hv, hval, hact] at hc
        subst hc
        exact Or.inl rfl
    · simp [finishVersion, hv, hval] at hc
      subst hc
      exact Or.inl rfl

/-- A `ValidateVersion` client error ends the run at the validation call
with the wrapped error; nothing is activated and `active_version` is not
written. -/
theorem finishVersion_validate_err (o : Oracle) (st : ResourceState)
    (v : Nat) (e : ApiErr) (h : o.validateRes = Except.error e) :
    finishVersion o st v =
      ⟨[ApiCall.validateVersion v], some (UpdErr.validateCheck e), none⟩ := by
  simp [finishVersion, h]

/-- An invalid validation result ends the run at the validation call with
the invalid-configuration error; nothing is activated and `active_version`
is not written. -/
theorem finishVersion_invalid (o : Oracle) (st : ResourceState)
    (v : Nat) (msg : String) (h : o.validateRes = Except.ok (false, msg)) :
    finishVersion o st v =
      ⟨[ApiCall.validateVersion v], some (UpdErr.invalidConfig msg), none⟩ := by
  simp [finishVersion, h]


/-- `active_version` is written by the validate/activate tail only to the
working version, and only after a valid validation and a successful
activation with the activate flag set. -/
theorem finishVersion_avSet (o : Oracle) (st : ResourceState) (v n : Nat)
    (h : (finishVersion o st v).activeVersionSet = some n) :
    n = v ∧ (∃ msg, o.validateRes = Except.ok (true, msg)) ∧
    st.activate = true ∧ o.activateRes = none ∧
    (finishVersion o st v).err = none ∧
    (finishVersion o st v).trace =
      [ApiCall.validateVersion v, ApiCall.activateVersion v] := by
  cases hv : o.validateRes with
  | error e => simp [finishVersion, hv] at h
  | ok p =>
    obtain ⟨valid, msg⟩ := p
    by_cases hval : valid = true
    · by_cases hact : st.activate = true
      · cases hres : o.activateRes with
        | some e => simp [finishVersion, hv, hval, hact, hres] at h
        | none =>
          simp [finishVersion, hv, hval, hact, hres] at h
          subst hval
          refine ⟨h.symm, ⟨msg, rfl⟩, hact, rfl, ?_, ?_⟩ <;>
            simp [finishVersion, hv, hact, hres]
      · simp [finishVersion, hv, hval, hact] at h
    · simp [finishVersion, hv, hval] at h

/-- Every call an update run issues comes from one of its steps: the
service update, the `version_comment`-only update, the clone of the active
version, or (on the fresh path at version 1, on the cloned path at the
cloned version) the clone-comment step, the mutation phase or the
validate/activate tail. -/
theorem update_mem (o : Oracle) (st : ResourceState) :
    ∀ c ∈ (resourceServiceV1Update o st).trace,
      c ∈ (svcUpdateStep o st).fst ∨
      c ∈ (versionCommentOnlyStep o st).fst ∨
      c = ApiCall.cloneVersion st.activeVersion ∨
      (st.activeVersion = 0 ∧
        (c ∈ (versionMutations o st 1).fst ∨ c ∈ (finishVersion o st 1).trace)) ∨
      (∃ n, o.cloneRes = Except.ok n ∧ st.activeVersion ≠ 0 ∧
        (c ∈ (cloneCommentStep o st n).fst ∨ c ∈ (versionMutations o st n).fst ∨
         c ∈ (finishVersion o st n).trace)) := by
  intro c hc
  cases hsc : (svcUpdateStep o st).snd with
  | some e =>
    simp [resourceServiceV1Update, hsc] at hc
    exact Or.inl hc
  | none =>
    by_cases hn : needsChange st
    · by_cases hav : st.activeVersion = 0
      · cases hvm : (versionMutations o st 1).snd with
        | some e =>
          simp [resourceServiceV1Update, hsc, hn, hav, runVersionChanges, hvm] at hc
          rcases hc with hc | hc
          · exact Or.inl hc
          · exact Or.inr (Or.inr (Or.inr (Or.inl ⟨hav, Or.inl hc⟩)))
        | none =>
          simp [resourceServiceV1Update, hsc, hn, hav, runVersionChanges, hvm] at hc
          rcases hc with hc | hc | hc
          · exact Or.inl hc
          · exact Or.inr (Or.inr (Or.inr (Or.inl ⟨hav, Or.inl hc⟩)))
          · exact Or.inr (Or.inr (Or.inr (Or.inl ⟨hav, Or.inr hc⟩)))
      · cases hcl : o.cloneRes with
        | error e =>
          simp [resourceServiceV1Update, hsc, hn, hav, hcl] at hc
          rcases hc with hc | hc
          · exact Or.inl hc
          · exact Or.inr (Or.inr (Or.inl hc))
        | ok n =>
          cases hcc : (cloneCommentStep o st n).snd with
          | some e =>
            simp [resourceServiceV1Update, hsc, hn, hav, hcl, hcc] at hc
            rcases hc with hc | hc | hc
            · exact Or.inl hc
            · exact Or.inr (Or.inr (Or.inl hc))
            · exact Or.inr (Or.inr (Or.inr (Or.inr ⟨n, rfl, hav, Or.inl hc⟩)))
          | none =>
            cases hvm : (versionMutations o st n).snd with
            | some e =>
              simp [resourceServiceV1Update, hsc, hn, hav, hcl, hcc,
                runVersionChanges, hvm] at hc
              rcases hc with hc | hc | hc | hc
              · exact Or.inl hc
              · exact Or.inr (Or.inr (Or.inl hc))
              · exact Or.inr (Or.inr (Or.inr (Or.inr ⟨n, rfl, hav, Or.inl hc⟩)))
              · exact Or.inr (Or.inr (Or.inr (Or.inr ⟨n, rfl, hav, Or.inr (Or.inl hc)⟩)))
            | none =>
              simp [resourceServiceV1Update, hsc, hn, hav, hcl, hcc,
                runVersionChanges, hvm] at hc
              rcases hc with hc | hc | hc | hc | hc
              · exact Or.inl hc
              · exact Or.inr (Or.inr (Or.inl hc))
              · exact Or.inr (Or.inr (Or.inr (Or.inr ⟨n, rfl, hav, Or.inl hc⟩)))
              · exact Or.inr (Or.inr (Or.inr (Or.inr ⟨n, rfl, hav, Or.inr (Or.inl hc)⟩)))
              · exact Or.inr (Or.inr (Or.inr (Or.inr ⟨n, rfl, hav, Or.inr (Or.inr hc)⟩)))
    · cases hvc : (versionCommentOnlyStep o st).snd with
      | some e =>
        simp [resourceServiceV1Update, hsc, hn, hvc] at hc
        rcases hc with hc | hc
        · exact Or.inl hc
        · exact Or.inr (Or.inl hc)
      | none =>
        simp [resourceServiceV1Update, hsc, hn, hvc] at hc
        rcases hc with hc | hc
        · exact Or.inl hc
        · exact Or.inr (Or.inl hc)

/-- The trace of a fresh-service update (active version 0): service step,
then mutations at version 1, then the validate/activate tail at version 1;
no clone. -/
theorem update_shape_fresh (o : Oracle) (st : ResourceState)
    (hsc : (svcUpdateStep o st).snd = none) (hn : needsChange st = true)
    (hav : st.activeVersion = 0)
    (hvm : (versionMutations o st 1).snd = none) :
    resourceServiceV1Update o st =
      ⟨(svcUpdateStep o st).fst ++
        ((versionMutations o st 1).fst ++ (finishVersion o st 1).trace),
       (finishVersion o st 1).err, (finishVersion o st 1).activeVersionSet⟩ := by
  simp [resourceServiceV1Update, hsc, hn, hav, runVersionChanges, hvm]

/-- The trace of an update of an already-activated service: service step,
clone of the active version, optional clone-comment update, mutations at
the cloned version, validate/activate tail at the cloned version. -/
theorem update_shape_clone (o : Oracle) (st : ResourceState) (n : Nat)
    (hsc : (svcUpdateStep o st).snd = none) (hn : needsChange st = true)
    (hav : st.activeVersion ≠ 0) (hcl : o.cloneRes = Except.ok n)
    (hcc : (cloneCommentStep o st n).snd = none)
    (hvm : (versionMutations o st n).snd = none) :
    resourceServiceV1Update o st =
      ⟨(svcUpdateStep o st).fst ++
        ApiCall.cloneVersion st.activeVersion ::
          ((cloneCommentStep o st n).fst ++
            ((versionMutations o st n).fst ++ (finishVersion o st n).trace)),
       (finishVersion o st n).err, (finishVersion o st n).activeVersionSet⟩ := by
  simp [resourceServiceV1Update, hsc, hn, hav, hcl, hcc, runVersionChanges, hvm]

/-- A mutation-phase error on the fresh path aborts the whole update with
that error, returned as-is. -/
theorem update_err_vm_fresh (o : Oracle) (st : ResourceState) (e : ApiErr)
    (hsc : (svcUpdateStep o st).snd = none) (hn : needsChange st = true)
    (hav : st.activeVersion = 0)
    (hvm : (versionMutations o st 1).snd = some e) :
    (resourceServiceV1Update o st).err = some (UpdErr.api e) := by
  simp [resourceServiceV1Update, hsc, hn, hav, runVersionChanges, hvm]

/-- A mutation-phase error on the cloned path aborts the whole update with
that error, returned as-is. -/
theorem update_err_vm_clone (o : Oracle) (st : ResourceState) (n : Nat)
    (e : ApiErr)
    (hsc : (svcUpdateStep o st).snd = none) (hn : needsChange st = true)
    (hav : st.activeVersion ≠ 0) (hcl : o.cloneRes = Except.ok n)
    (hcc : (cloneCommentStep o st n).snd = none)
    (hvm : (versionMutations o st n).snd = some e) :
    (resourceServiceV1Update o st).err = some (UpdErr.api e) := by
  simp [resourceServiceV1Update, hsc, hn, hav, hcl, hcc, runVersionChanges, hvm]

/-- A settings-step success turns a block-sequence error into the
mutation-phase error. -/
theorem versionMutations_err (o : Oracle) (st : ResourceState) (v : Nat)
    (e : ApiErr) (hset : (settingsStep o st v).snd = none)
    (hb : (processBlocks o st v processOrder).snd = some e) :
    (versionMutations o st v).snd = some e := by
  simp [versionMutations, hset, hb]

/-- A failed reconciliation of the first changed block of the sequence
aborts the sequence with that error. -/
theorem processBlocks_head_abort (o : Oracle) (st : ResourceState) (v : Nat)
    (bt : BlockType) (rest : List BlockType) (e : ApiErr)
    (hch : st.oldBlock bt ≠ st.newBlock bt)
    (h : (processBlock o st bt v).snd = some e) :
    processBlocks o st v (bt :: rest) = ((processBlock o st bt v).fst, some e) := by
  simp [processBlocks, hch, h]

/-- A delete-loop error aborts the block reconciliation with that error
before any create call. -/
theorem processBlock_delete_abort (o : Oracle) (st : ResourceState)
    (bt : BlockType) (v : Nat) (e : ApiErr)
    (h : (runDeletes o bt v (setDiff (st.oldBlock bt) (st.newBlock bt))).snd = some e) :
    processBlock o st bt v =
      ((runDeletes o bt v (setDiff (st.oldBlock bt) (st.newBlock bt))).fst,
       some e) := by
  simp [processBlock, h]

/-- When every List endpoint answers at version `v`, the refresh loop
succeeds and stores the flattened listing for exactly the visited blocks,
leaving the rest untouched. -/
theorem refreshBlocks_ok (o : ReadOracle) (v : Nat)
    (ls : BlockType → List RemoteElem)
    (h : ∀ bt, o.listBlockRes bt v = Except.ok (ls bt))
    (blocks : BlockType → List Elem) (bts : List BlockType) :
    (refreshBlocks o v blocks bts).snd = none ∧
    ∀ bt, (refreshBlocks o v blocks bts).fst bt =
      if bt ∈ bts then flattenBlock bt (ls bt) else blocks bt := by
  induction bts generalizing blocks with
  | nil => simp [refreshBlocks]
  | cons b rest ih =>
    have hb := h b
    have hstep : refreshBlocks o v blocks (b :: rest) =
        refreshBlocks o v
          (fun b2 => if b2 = b then flattenBlock b (ls b) else blocks b2) rest := by
      simp [refreshBlocks, hb]
    constructor
    · rw [hstep]
      exact (ih _).1
    · intro bt
      rw [hstep, (ih _).2 bt]
      by_cases hmem : bt ∈ rest
      · simp [hmem]
      · by_cases heq : bt = b
        · subst heq
          simp [hmem]
        · simp [hmem, heq]

/-- `findService` returns the not-found sentinel exactly when the ID is
absent from a successful `ListServices` response. -/
theorem findService_noService_iff (l : List FService) (o : ReadOracle)
    (id : String) (h : o.listServicesRes = Except.ok l) :
    findService o id = Except.error FindErr.noServiceFound ↔
      id ∉ l.map FService.id := by
  cases hf : l.find? (fun s => s.id == id) with
  | some s =>
    have hs : s.id = id := by simpa using List.find?_some hf
    have hmem := List.mem_of_find?_eq_some hf
    refine iff_of_false (by simp [findService, h, hf]) ?_
    intro hno
    exact hno (List.mem_map.mpr ⟨s, hmem, hs⟩)
  | none =>
    refine iff_of_true (by simp [findService, h, hf]) ?_
    intro hmape
    obtain ⟨s, hsl, hsid⟩ := List.mem_map.mp hmape
    exact (List.find?_eq_none.mp hf s hsl) (by simp [hsid])

/-- The 21 block types of the reconciliation order are distinct. -/
theorem processOrder_nodup : processOrder.Nodup := by decide

/-- Every block type appears in the reconciliation order. -/
theorem mem_processOrder : ∀ bt : BlockType, bt ∈ processOrder := by decide

/-- A successful mutation phase is the settings step followed by the block
sequence, both successful. -/
theorem versionMutations_ok_parts (o : Oracle) (st : ResourceState) (v : Nat)
    (h : (versionMutations o st v).snd = none) :
    (settingsStep o st v).snd = none ∧
    (processBlocks o st v processOrder).snd = none ∧
    (versionMutations o st v).fst =
      (settingsStep o st v).fst ++ (processBlocks o st v processOrder).fst := by
  cases hs : (settingsStep o st v).snd with
  | some e => simp [versionMutations, hs] at h
  | none =>
    simp [versionMutations, hs] at h
    exact ⟨rfl, h, by simp [versionMutations, hs]⟩

/-- A successful validate/activate tail validated the version and
(exactly when the activate flag is set) activated it and recorded it. -/
theorem finishVersion_ok_shape (o : Oracle) (st : ResourceState) (v : Nat)
    (h : (finishVersion o st v).err = none) :
    (∃ msg, o.validateRes = Except.ok (true, msg)) ∧
    (finishVersion o st v).trace =
      ApiCall.validateVersion v ::
        (if st.activate then [ApiCall.activateVersion v] else []) ∧
    (finishVersion o st v).activeVersionSet =
      (if st.activate then some v else none) := by
  cases hv : o.validateRes with
  | error e => simp [finishVersion, hv] at h
  | ok p =>
    obtain ⟨valid, msg⟩ := p
    by_cases hval : valid = true
    · by_cases hact : st.activate = true
      · cases hres : o.activateRes with
        | some e => simp [finishVersion, hv, hval, hact, hres] at h
        | none =>
          subst hval
          exact ⟨⟨msg, rfl⟩, by simp [finishVersion, hv, hact, hres],
            by simp [finishVersion, hv, hact, hres]⟩
      · have hact2 : st.activate = false := by
          cases hb : st.activate
          · rfl
          · exact absurd hb hact
        subst hval
        exact ⟨⟨msg, rfl⟩, by simp [finishVersion, hv, hact2],
          by simp [finishVersion, hv, hact2]⟩
    · simp [finishVersion, hv, hval] at h

/-- A successful update with versioned changes passed validation. -/
theorem update_ok_validate (o : Oracle) (st : ResourceState)
    (hn : needsChange st = true)
    (hok : (resourceServiceV1Update o st).err = none) :
    ∃ msg, o.validateRes = Except.ok (true, msg) := by
  cases hsc : (svcUpdateStep o st).snd with
  | some e => simp [resourceServiceV1Update, hsc] at hok
  | none =>
    by_cases hav : st.activeVersion = 0
    · cases hvm : (versionMutations o st 1).snd with
      | some e =>
        simp [resourceServiceV1Update, hsc, hn, hav, runVersionChanges, hvm] at hok
      | none =>
        rw [update_shape_fresh o st hsc hn hav hvm] at hok
        exact (finishVersion_ok_shape o st 1 hok).1
    · cases hcl : o.cloneRes with
      | error e => simp [resourceServiceV1Update, hsc, hn, hav, hcl] at hok
      | ok m =>
        cases hcc : (cloneCommentStep o st m).snd with
        | some e =>
          simp [resourceServiceV1Update, hsc, hn, hav, hcl, hcc] at hok
        | none =>
          cases hvm : (versionMutations o st m).snd with
          | some e =>
            simp [resourceServiceV1Update, hsc, hn, hav, hcl, hcc,
              runVersionChanges, hvm] at hok
          | none =>
            rw [update_shape_clone o st m hsc hn hav hcl hcc hvm] at hok
            exact (finishVersion_ok_shape o st m hok).1

/-- A recorded `active_version` write comes from the validate/activate tail
of either the fresh path (version 1) or the cloned path (the cloned
version), whose error and trace the update returns. -/
theorem update_avSet_inv (o : Oracle) (st : ResourceState) (n : Nat)
    (h : (resourceServiceV1Update o st).activeVersionSet = some n) :
    ∃ v, (finishVersion o st v).activeVersionSet = some n ∧
      (resourceServiceV1Update o st).err = (finishVersion o st v).err ∧
      (∀ c ∈ (finishVersion o st v).trace,
        c ∈ (resourceServiceV1Update o st).trace) ∧
      ((st.activeVersion = 0 ∧ v = 1) ∨
       (st.activeVersion ≠ 0 ∧ o.cloneRes = Except.ok v)) := by
  cases hsc : (svcUpdateStep o st).snd with
  | some e => simp [resourceServiceV1Update, hsc] at h
  | none =>
    by_cases hn : needsChange st
    · by_cases hav : st.activeVersion = 0
      · cases hvm : (versionMutations o st 1).snd with
        | some e =>
          simp [resourceServiceV1Update, hsc, hn, hav, runVersionChanges, hvm] at h
        | none =>
          rw [update_shape_fresh o st hsc hn hav hvm] at h
          refine ⟨1, h, ?_, ?_, Or.inl ⟨hav, rfl⟩⟩
          · rw [update_shape_fresh o st hsc hn hav hvm]
          · intro c hc
            rw [update_shape_fresh o st hsc hn hav hvm]
            simp
            exact Or.inr (Or.inr hc)
      · cases hcl : o.cloneRes with
        | error e => simp [resourceServiceV1Update, hsc, hn, hav, hcl] at h
        | ok m =>
          cases hcc : (cloneCommentStep o st m).snd with
          | some e =>
            simp [resourceServiceV1Update, hsc, hn, hav, hcl, hcc] at h
          | none =>
            cases hvm : (versionMutations o st m).snd with
            | some e =>
              simp [resourceServiceV1Update, hsc, hn, hav, hcl, hcc,
                runVersionChanges, hvm] at h
            | none =>
              rw [update_shape_clone o st m hsc hn hav hcl hcc hvm] at h
              refine ⟨m, h, ?_, ?_, Or.inr ⟨hav, rfl⟩⟩
              · rw [update_shape_clone o st m hsc hn hav hcl hcc hvm]
              · intro c hc
                rw [update_shape_clone o st m hsc hn hav hcl hcc hvm]
                simp
                exact Or.inr (Or.inr (Or.inr (Or.inr hc)))
    · cases hvc : (versionCommentOnlyStep o st).snd with
      | some e => simp [resourceServiceV1Update, hsc, hn, hvc] at h
      | none => simp [resourceServiceV1Update, hsc, hn, hvc] at h

/-- The service step contributes no block-tagged call. -/
theorem svcUpdateStep_tags (o : Oracle) (st : ResourceState) :
    (svcUpdateStep o st).fst.filterMap blockOf = [] := by
  rcases svcUpdateStep_shape o st with h | h <;> simp [h, blockOf]

/-- The `version_comment`-only step contributes no block-tagged call. -/
theorem versionCommentOnlyStep_tags (o : Oracle) (st : ResourceState) :
    (versionCommentOnlyStep o st).fst.filterMap blockOf = [] := by
  rcases versionCommentOnlyStep_shape o st with h | h <;> simp [h, blockOf]

/-- The clone-comment step contributes no block-tagged call. -/
theorem cloneCommentStep_tags (o : Oracle) (st : ResourceState) (v : Nat) :
    (cloneCommentStep o st v).fst.filterMap blockOf = [] := by
  rcases cloneCommentStep_shape o st v with h | h <;> simp [h, blockOf]

/-- The settings step contributes no block-tagged call. -/
theorem settingsStep_tags (o : Oracle) (st : ResourceState) (v : Nat) :
    (settingsStep o st v).fst.filterMap blockOf = [] := by
  rcases settingsStep_shape o st v with h | h <;> simp [h, blockOf]

/-- The validate/activate tail contributes no block-tagged call. -/
theorem finishVersion_tags (o : Oracle) (st : ResourceState) (v : Nat) :
    (finishVersion o st v).trace.filterMap blockOf = [] := by
  refine List.filterMap_eq_nil_iff.mpr (fun c hc => ?_)
  rcases finishVersion_mem o st v c hc with rfl | rfl <;> simp [blockOf]

/-- Every block tag of a block-sequence run names one of its blocks. -/
theorem processBlocks_tags_sub (o : Oracle) (st : ResourceState) (v : Nat)
    (bts : List BlockType) :
    ∀ t ∈ (processBlocks o st v bts).fst.filterMap blockOf, t ∈ bts := by
  intro t ht
  obtain ⟨c, hc, hct⟩ := List.mem_filterMap.mp ht
  obtain ⟨bt, hbt, hbo, _⟩ := processBlocks_mem o st v bts c hc
  rw [hbo] at hct
  cases hct
  exact hbt

/-- The block tags of a run over a split sequence split accordingly. -/
theorem processBlocks_tags_split (o : Oracle) (st : ResourceState) (v : Nat)
    (xs ys : List BlockType) :
    ∃ a b, (processBlocks o st v (xs ++ ys)).fst.filterMap blockOf = a ++ b ∧
      (∀ t ∈ a, t ∈ xs) ∧ (∀ t ∈ b, t ∈ ys) := by
  cases hx : (processBlocks o st v xs).snd with
  | some e =>
    rw [processBlocks_append_abort o st v xs ys e hx]
    exact ⟨(processBlocks o st v xs).fst.filterMap blockOf, [], by simp,
      processBlocks_tags_sub o st v xs, by simp⟩
  | none =>
    rw [processBlocks_append_ok o st v xs ys hx]
    exact ⟨(processBlocks o st v xs).fst.filterMap blockOf,
      (processBlocks o st v ys).fst.filterMap blockOf,
      by simp [List.filterMap_append],
      processBlocks_tags_sub o st v xs, processBlocks_tags_sub o st v ys⟩

/-- The mutation phase's block tags are those of the block sequence (or
none at all when the settings step aborted). -/
theorem versionMutations_tags (o : Oracle) (st : ResourceState) (v : Nat) :
    (versionMutations o st v).fst.filterMap blockOf =
      (processBlocks o st v processOrder).fst.filterMap blockOf ∨
    (versionMutations o st v).fst.filterMap blockOf = [] := by
  cases hs : (settingsStep o st v).snd with
  | some e =>
    right
    simp [versionMutations, hs, settingsStep_tags]
  | none =>
    left
    simp [versionMutations, hs, List.filterMap_append, settingsStep_tags]

/-- The block tags of a whole update run are those of one block-sequence
run (over the fixed order), or none at all. -/
theorem update_tags (o : Oracle) (st : ResourceState) :
    (∃ v, (resourceServiceV1Update o st).trace.filterMap blockOf =
      (processBlocks o st v processOrder).fst.filterMap blockOf) ∨
    (resourceServiceV1Update o st).trace.filterMap blockOf = [] := by
  cases hsc : (svcUpdateStep o st).snd with
  | some e =>
    right
    simp [resourceServiceV1Update, hsc, svcUpdateStep_tags]
  | none =>
    by_cases hn : needsChange st
    · by_cases hav : st.activeVersion = 0
      · cases hvm : (versionMutations o st 1).snd with
        | some e =>
          rcases versionMutations_tags o st 1 with hv | hv
          · left
            exact ⟨1, by
              simp [resourceServiceV1Update, hsc, hn, hav, runVersionChanges, hvm,
                List.filterMap_append, svcUpdateStep_tags, hv]⟩
          · right
            simp [resourceServiceV1Update, hsc, hn, hav, runVersionChanges, hvm,
              List.filterMap_append, svcUpdateStep_tags, hv]
        | none =>
          rcases versionMutations_tags o st 1 with hv | hv
          · left
            exact ⟨1, by
              rw [update_shape_fresh o st hsc hn hav hvm]
              simp [List.filterMap_append, svcUpdateStep_tags, finishVersion_tags, hv]⟩
          · right
            rw [update_shape_fresh o st hsc hn hav hvm]
            simp [List.filterMap_append, svcUpdateStep_tags, finishVersion_tags, hv]
      · cases hcl : o.cloneRes with
        | error e =>
          right
          simp [resourceServiceV1Update, hsc, hn, hav, hcl, List.filterMap_append,
            svcUpdateStep_tags, blockOf]
        | ok m =>
          cases hcc : (cloneCommentStep o st m).snd with
          | some e =>
            right
            simp [resourceServiceV1Update, hsc, hn, hav, hcl, hcc,
              List.filterMap_append, svcUpdateStep_tags, cloneCommentStep_tags,
              blockOf]
          | none =>
            cases hvm : (versionMutations o st m).snd with
            | some e =>
              rcases versionMutations_tags o st m with hv | hv
              · left
                exact ⟨m, by
                  simp [resourceServiceV1Update, hsc, hn, hav, hcl, hcc,
                    runVersionChanges, hvm, List.filterMap_append,
                    svcUpdateStep_tags, cloneCommentStep_tags, blockOf, hv]⟩
              · right
                simp [resourceServiceV1Update, hsc, hn, hav, hcl, hcc,
                  runVersionChanges, hvm, List.filterMap_append,
                  svcUpdateStep_tags, cloneCommentStep_tags, blockOf, hv]
            | none =>
              rcases versionMutations_tags o st m with hv | hv
              · left
                exact ⟨m, by
                  rw [update_shape_clone o st m hsc hn hav hcl hcc hvm]
                  simp [List.filterMap_append, svcUpdateStep_tags,
                    cloneCommentStep_tags, finishVersion_tags, blockOf, hv]⟩
              · right
                rw [update_shape_clone o st m hsc hn hav hcl hcc hvm]
                simp [List.filterMap_append, svcUpdateStep_tags,
                  cloneCommentStep_tags, finishVersion_tags, blockOf, hv]
    · cases hvc : (versionCommentOnlyStep o st).snd with
      | some e =>
        right
        simp [resourceServiceV1Update, hsc, hn, hvc, List.filterMap_append,
          svcUpdateStep_tags, versionCommentOnlyStep_tags]
      | none =>
        right
        simp [resourceServiceV1Update, hsc, hn, hvc, List.filterMap_append,
          svcUpdateStep_tags, versionCommentOnlyStep_tags]

/-- Every block type appears in the read refresh order. -/
theorem mem_readOrder : ∀ bt : BlockType, bt ∈ readOrder := by decide

/-- A successful block-sequence run means every listed block's own
reconciliation succeeded (skipped blocks reconcile to nothing). -/
theorem processBlocks_ok_each (o : Oracle) (st : ResourceState) (v : Nat)
    (bts : List BlockType) (h : (processBlocks o st v bts).snd = none) :
    ∀ bt ∈ bts, (processBlock o st bt v).snd = none := by
  induction bts with
  | nil => simp
  | cons b rest ih =>
    intro bt hbt
    by_cases heq : st.oldBlock b = st.newBlock b
    · simp only [processBlocks, heq, if_pos rfl] at h
      rcases List.mem_cons.mp hbt with hbt | hbt
      · subst hbt
        rw [processBlock_unchanged o st bt v heq]
      · exact ih h bt hbt
    · cases hr : (processBlock o st b v).snd with
      | some e =>
        have : (processBlocks o st v (b :: rest)).snd = some e := by
          simp [processBlocks, heq, hr]
        rw [this] at h
        exact absurd h (by simp)
      | none =>
        have hstep : (processBlocks o st v (b :: rest)).snd =
            (processBlocks o st v rest).snd := by
          simp [processBlocks, heq, hr]
        rw [hstep] at h
        rcases List.mem_cons.mp hbt with hbt | hbt
        · subst hbt
          exact hr
        · exact ih h bt hbt

/-- C1.  For every sub-resource block whose configuration set changed, the
reconciliation computes the removals as old-minus-new and the additions as
new-minus-old, issues one delete call per removed element and one create
call per added element, and issues all of the block's delete calls before
any of its create calls: a successful block reconciliation is exactly the
delete calls of `old.Difference(new)` followed by a delete-free create
phase creating exactly `new.Difference(old)`, and within a successful
update the calls of each block form exactly that reconciliation (at
version 1 for a never-activated service, at the cloned version otherwise). -/
theorem spec_c1 :
    (∀ (o : Oracle) (st : ResourceState) (bt : BlockType) (v : Nat),
      (processBlock o st bt v).snd = none →
      ∃ crs, (processBlock o st bt v).fst =
          (setDiff (st.oldBlock bt) (st.newBlock bt)).map
            (fun e => ApiCall.deleteElem bt v e.name) ++ crs
        ∧ crs.filterMap createdElem = setDiff (st.newBlock bt) (st.oldBlock bt)
        ∧ ∀ c ∈ crs, isDeleteCall c = false)
    ∧ (∀ (o : Oracle) (st : ResourceState) (bt : BlockType),
      (resourceServiceV1Update o st).err = none → needsChange st = true →
      ∃ v, (resourceServiceV1Update o st).trace.filter
          (fun c => decide (blockOf c = some bt)) = (processBlock o st bt v).fst ∧
        (processBlock o st bt v).snd = none ∧
        (st.activeVersion = 0 → v = 1) ∧
        (st.activeVersion ≠ 0 → o.cloneRes = Except.ok v)) := by
  constructor
  · exact fun o st bt v h => processBlock_ok o st bt v h
  · intro o st bt hok hn
    have hsvcf : ∀ (p : ApiCall → Bool), (∀ nm cm, p (ApiCall.updateService nm cm) = false) →
        (svcUpdateStep o st).fst.filter p = [] := by
      intro p hp
      rcases svcUpdateStep_shape o st with h | h <;> simp [h, hp]
    cases hsc : (svcUpdateStep o st).snd with
    | some e => simp [resourceServiceV1Update, hsc] at hok
    | none =>
      by_cases hav : st.activeVersion = 0
      · cases hvm : (versionMutations o st 1).snd with
        | some e =>
          simp [resourceServiceV1Update, hsc, hn, hav, runVersionChanges, hvm] at hok
        | none =>
          obtain ⟨hset, hblocks, hvmf⟩ := versionMutations_ok_parts o st 1 hvm
          refine ⟨1, ?_, processBlocks_ok_each o st 1 processOrder hblocks bt
            (mem_processOrder bt), fun _ => rfl, fun hne => absurd hav hne⟩
          rw [update_shape_fresh o st hsc hn hav hvm]
          simp only [List.filter_append, hvmf]
          have h1 : (svcUpdateStep o st).fst.filter
              (fun c => decide (blockOf c = some bt)) = [] := by
            apply hsvcf
            intro nm cm
            simp [blockOf]
          have h2 : (settingsStep o st 1).fst.filter
              (fun c => decide (blockOf c = some bt)) = [] := by
            rcases settingsStep_shape o st 1 with h | h <;> simp [h, blockOf]
          have h3 : (finishVersion o st 1).trace.filter
              (fun c => decide (blockOf c = some bt)) = [] := by
            refine List.filter_eq_nil_iff.mpr (fun c hc => ?_)
            rcases finishVersion_mem o st 1 c hc with rfl | rfl <;> simp [blockOf]
          rw [h1, h3, processBlocks_filter o st 1 bt processOrder processOrder_nodup
            hblocks (mem_processOrder bt)]
          simp [h2]
      · cases hcl : o.cloneRes with
        | error e => simp [resourceServiceV1Update, hsc, hn, hav, hcl] at hok
        | ok m =>
          cases hcc : (cloneCommentStep o st m).snd with
          | some e =>
            simp [resourceServiceV1Update, hsc, hn, hav, hcl, hcc] at hok
          | none =>
            cases hvm : (versionMutations o st m).snd with
            | some e =>
              simp [resourceServiceV1Update, hsc, hn, hav, hcl, hcc,
                runVersionChanges, hvm] at hok
            | none =>
              obtain ⟨hset, hblocks, hvmf⟩ := versionMutations_ok_parts o st m hvm
              refine ⟨m, ?_, processBlocks_ok_each o st m processOrder hblocks bt
                (mem_processOrder bt), fun h0 => absurd h0 hav, fun _ => rfl⟩
              rw [update_shape_clone o st m hsc hn hav hcl hcc hvm]
              simp only [List.filter_append, List.filter_cons, hvmf]
              have h1 : (svcUpdateStep o st).fst.filter
                  (fun c => decide (blockOf c = some bt)) = [] := by
                apply hsvcf
                intro nm cm
                simp [blockOf]
              have h2 : (settingsStep o st m).fst.filter
                  (fun c => decide (blockOf c = some bt)) = [] := by
                rcases settingsStep_shape o st m with h | h <;> simp [h, blockOf]
              have h3 : (finishVersion o st m).trace.filter
                  (fun c => decide (blockOf c = some bt)) = [] := by
                refine List.filter_eq_nil_iff.mpr (fun c hc => ?_)
                rcases finishVersion_mem o st m c hc with rfl | rfl <;> simp [blockOf]
              have h4 : (cloneCommentStep o st m).fst.filter
                  (fun c => decide (blockOf c = some bt)) = [] := by
                rcases cloneCommentStep_shape o st m with h | h <;> simp [h, blockOf]
              have h5 : decide (blockOf (ApiCall.cloneVersion st.activeVersion) = some bt) = false := by
                simp [blockOf]
              rw [h1, h3, h4, processBlocks_filter o st m bt processOrder
                processOrder_nodup hblocks (mem_processOrder bt)]
              simp [h2, h5]

/-- C1 witness: the condition block changing from a,b to b,c at version 7
under an all-success oracle, and the same change inside a full update. -/
theorem spec_c1_witness :
    (∃ crs, (processBlock oracleOk stCond BlockType.condition 7).fst =
        (setDiff (stCond.oldBlock BlockType.condition)
          (stCond.newBlock BlockType.condition)).map
          (fun e => ApiCall.deleteElem BlockType.condition 7 e.name) ++ crs
      ∧ crs.filterMap createdElem =
          setDiff (stCond.newBlock BlockType.condition)
            (stCond.oldBlock BlockType.condition)
      ∧ ∀ c ∈ crs, isDeleteCall c = false) ∧
    (∃ v, (resourceServiceV1Update oracleOk stCond).trace.filter
        (fun c => decide (blockOf c = some BlockType.condition)) =
        (processBlock oracleOk stCond BlockType.condition v).fst ∧
      (processBlock oracleOk stCond BlockType.condition v).snd = none ∧
      (stCond.activeVersion = 0 → v = 1) ∧
      (stCond.activeVersion ≠ 0 → oracleOk.cloneRes = Except.ok v)) :=
  ⟨spec_c1.1 oracleOk stCond BlockType.condition 7 (by decide),
   spec_c1.2 oracleOk stCond BlockType.condition (by decide) (by decide)⟩

/-- C2.  A successful update that changed a versioned attribute issues: the
optional unversioned `UpdateService`, then (for an already-activated
service) `CloneVersion` of the active version as the first versioned call,
then only versioned mutations addressed to the cloned version, then
`ValidateVersion` on it, and finally `ActivateVersion` on it exactly when
the activate flag is set; for a never-activated service no clone is issued
and everything targets version 1. -/
theorem spec_c2 (o : Oracle) (st : ResourceState)
    (hn : needsChange st = true)
    (hok : (resourceServiceV1Update o st).err = none) :
    (∀ c ∈ (svcUpdateStep o st).fst, callVersion c = none) ∧
    (st.activeVersion ≠ 0 →
      ∃ n muts, o.cloneRes = Except.ok n ∧
        (resourceServiceV1Update o st).trace =
          (svcUpdateStep o st).fst ++
            ApiCall.cloneVersion st.activeVersion ::
              (muts ++ ApiCall.validateVersion n ::
                (if st.activate then [ApiCall.activateVersion n] else [])) ∧
        ∀ c ∈ muts, isVersionedMutation c = true ∧ callVersion c = some n) ∧
    (st.activeVersion = 0 →
      ∃ muts,
        (resourceServiceV1Update o st).trace =
          (svcUpdateStep o st).fst ++
            (muts ++ ApiCall.validateVersion 1 ::
              (if st.activate then [ApiCall.activateVersion 1] else [])) ∧
        (∀ c ∈ muts, isVersionedMutation c = true ∧ callVersion c = some 1) ∧
        ∀ v, ApiCall.cloneVersion v ∉ (resourceServiceV1Update o st).trace) := by
  have hsvcmem : ∀ c ∈ (svcUpdateStep o st).fst, callVersion c = none := by
    intro c hc
    rcases svcUpdateStep_shape o st with h | h <;> rw [h] at hc <;> simp at hc
    subst hc
    simp [callVersion]
  refine ⟨hsvcmem, ?_, ?_⟩
  · intro hav
    cases hsc : (svcUpdateStep o st).snd with
    | some e => simp [resourceServiceV1Update, hsc] at hok
    | none =>
      cases hcl : o.cloneRes with
      | error e => simp [resourceServiceV1Update, hsc, hn, hav, hcl] at hok
      | ok m =>
        cases hcc : (cloneCommentStep o st m).snd with
        | some e =>
          simp [resourceServiceV1Update, hsc, hn, hav, hcl, hcc] at hok
        | none =>
          cases hvm : (versionMutations o st m).snd with
          | some e =>
            simp [resourceServiceV1Update, hsc, hn, hav, hcl, hcc,
              runVersionChanges, hvm] at hok
          | none =>
            have hsh := update_shape_clone o st m hsc hn hav hcl hcc hvm
            rw [hsh] at hok
            obtain ⟨hval, hfintr, hfinav⟩ := finishVersion_ok_shape o st m hok
            refine ⟨m, (cloneCommentStep o st m).fst ++ (versionMutations o st m).fst,
              rfl, ?_, ?_⟩
            · rw [hsh]
              simp [hfintr, List.append_assoc]
            · intro c hc
              rcases List.mem_append.mp hc with hc | hc
              · rcases cloneCommentStep_shape o st m with h | h <;> rw [h] at hc <;>
                  simp at hc
                subst hc
                simp [isVersionedMutation, callVersion]
              · exact versionMutations_mem o st m c hc
  · intro hav
    cases hsc : (svcUpdateStep o st).snd with
    | some e => simp [resourceServiceV1Update, hsc] at hok
    | none =>
      cases hvm : (versionMutations o st 1).snd with
      | some e =>
        simp [resourceServiceV1Update, hsc, hn, hav, runVersionChanges, hvm] at hok
      | none =>
        have hsh := update_shape_fresh o st hsc hn hav hvm
        rw [hsh] at hok
        obtain ⟨hval, hfintr, hfinav⟩ := finishVersion_ok_shape o st 1 hok
        refine ⟨(versionMutations o st 1).fst, ?_, versionMutations_mem o st 1, ?_⟩
        · rw [hsh]
          simp [hfintr]
        · intro v hv
          rw [hsh] at hv
          simp at hv
          rcases hv with hv | hv | hv
          · have := hsvcmem _ hv
            simp [callVersion] at this
          · have := (versionMutations_mem o st 1 _ hv).1
            simp [isVersionedMutation, isC4Mutation] at this
          · rw [hfintr] at hv
            by_cases hact : st.activate = true <;> simp [hact] at hv

/-- C2 witness: the condition-block update on a service with active
version 5 clones, mutates on the cloned version 7, validates and
activates. -/
theorem spec_c2_witness :
    ∃ n muts, oracleOk.cloneRes = Except.ok n ∧
      (resourceServiceV1Update oracleOk stCond).trace =
        (svcUpdateStep oracleOk stCond).fst ++
          ApiCall.cloneVersion stCond.activeVersion ::
            (muts ++ ApiCall.validateVersion n ::
              (if stCond.activate then [ApiCall.activateVersion n] else [])) ∧
      ∀ c ∈ muts, isVersionedMutation c = true ∧ callVersion c = some n :=
  (spec_c2 oracleOk stCond (by decide) (by decide)).2.1 (by decide)

/-- C3 counterexample: a `waf` block present in both the old and the new
configuration is updated in place: `processWAF` issues an `UpdateWAF` call
(after the existence check) and succeeds, although the claim says an
in-place update call is never issued for any covered sub-resource type. -/
theorem spec_c3_counterexample :
    (processWAF wafOracleOk [wafOld] [wafNew] 3).fst =
      [WafCall.getWAF "3" "wid", WafCall.updateWAF "3" "wid" "pc2" "ro2"] ∧
    (processWAF wafOracleOk [wafOld] [wafNew] 3).snd = none := by
  constructor <;> rfl

/-- C3 (amended).  For every set-difference sub-resource block the update
never issues an in-place or partial update call and realizes a modified
element only as a delete of the old element followed (later) by a create of
the new one; the sole exception is the WAF singleton block, which
`processWAF` updates in place via `UpdateWAF` whenever it is present in
both old and new configuration. -/
theorem spec_c3_amended :
    (∀ (o : Oracle) (st : ResourceState) (bt : BlockType) (v : Nat),
      (processBlock o st bt v).snd = none →
      (∀ c ∈ (processBlock o st bt v).fst, isInPlaceUpdate c = false) ∧
      (∀ eOld ∈ st.oldBlock bt, ∀ eNew ∈ st.newBlock bt,
        eOld.name = eNew.name → eOld ∉ st.newBlock bt → eNew ∉ st.oldBlock bt →
        ∃ dels crs, (processBlock o st bt v).fst = dels ++ crs ∧
          ApiCall.deleteElem bt v eOld.name ∈ dels ∧
          ApiCall.createElem bt v eNew ∈ crs))
    ∧ (∀ (wo : WafOracle) (w w2 : WafElem) (oldRest newRest : List WafElem)
        (v : Nat), wo.getWAFExists = true → wo.updateWAFRes = none →
        processWAF wo (w :: oldRest) (w2 :: newRest) v =
          ([WafCall.getWAF (toString v) w2.wafID,
            WafCall.updateWAF (toString v) w2.wafID w2.prefetchCondition
              w2.responseObject], none)) := by
  constructor
  · intro o st bt v h
    constructor
    · intro c hc
      have hm := (processBlock_mem o st bt v c hc).1
      cases c <;> simp_all [blockOf, isInPlaceUpdate]
    · intro eOld hOldMem eNew hNewMem hname hOldGone hNewFresh
      obtain ⟨crs, hsplit, hcreated, hnodel⟩ := processBlock_ok o st bt v h
      refine ⟨(setDiff (st.oldBlock bt) (st.newBlock bt)).map
        (fun e => ApiCall.deleteElem bt v e.name), crs, hsplit, ?_, ?_⟩
      · refine List.mem_map.mpr ⟨eOld, ?_, rfl⟩
        simp [setDiff, hOldMem, hOldGone]
      · have hmemNew : eNew ∈ crs.filterMap createdElem := by
          rw [hcreated]
          simp [setDiff, hNewMem, hNewFresh]
        obtain ⟨c, hcmem, hcsome⟩ := List.mem_filterMap.mp hmemNew
        have hcall : c ∈ (processBlock o st bt v).fst := by
          rw [hsplit]
          exact List.mem_append_right _ hcmem
        have hm := processBlock_mem o st bt v c hcall
        cases c <;> simp [createdElem] at hcsome
        case createElem bt2 v2 e2 =>
          obtain ⟨hbt2, hv2⟩ : bt2 = bt ∧ v2 = v := by
            have h1 := hm.1
            have h2 := hm.2.1
            simp [blockOf, callVersion] at h1 h2
            exact ⟨h1, h2⟩
          subst hbt2
          subst hv2
          subst hcsome
          exact hcmem
  · intro wo w w2 oldRest newRest v hex hupd
    simp [processWAF, hex, hupd]

/-- C3 amended witness: the in-place modification of a condition element is
realized as a delete of the old element before a create of the new one, and
the WAF block present on both sides is updated in place. -/
theorem spec_c3_amended_witness :
    (∃ dels crs,
      (processBlock oracleOk stMod BlockType.condition 7).fst = dels ++ crs ∧
      ApiCall.deleteElem BlockType.condition 7 "a" ∈ dels ∧
      ApiCall.createElem BlockType.condition 7 elemAmod2 ∈ crs) ∧
    processWAF wafOracleOk [wafOld] [wafNew] 3 =
      ([WafCall.getWAF "3" "wid", WafCall.updateWAF "3" "wid" "pc2" "ro2"],
       none) :=
  ⟨(spec_c3_amended.1 oracleOk stMod BlockType.condition 7 (by decide)).2
      elemAmod1 (by decide) elemAmod2 (by decide) (by decide) (by decide)
      (by decide),
   spec_c3_amended.2 wafOracleOk wafOld wafNew [] [] 3 rfl rfl⟩

/-- C4.  Under the remote guarantee that a clone is a fresh version number,
no sub-resource delete, sub-resource create or settings update issued by an
update ever targets the version recorded as active at the start when that
number is nonzero: every such mutation targets the cloned version, and
version 1 when no version was ever activated. -/
theorem spec_c4 (o : Oracle) (st : ResourceState)
    (hclone : ∀ n, o.cloneRes = Except.ok n → n ≠ st.activeVersion) :
    ∀ c ∈ (resourceServiceV1Update o st).trace, isC4Mutation c = true →
      (st.activeVersion ≠ 0 →
        callVersion c ≠ some st.activeVersion ∧
        ∃ n, o.cloneRes = Except.ok n ∧ callVersion c = some n) ∧
      (st.activeVersion = 0 → callVersion c = some 1) := by
  intro c hc hmut
  rcases update_mem o st c hc with hin | hin | hin | ⟨hav0, hin⟩ | ⟨n, hcl, hne, hin⟩
  · rcases svcUpdateStep_shape o st with h | h <;> rw [h] at hin <;> simp at hin
    subst hin
    simp [isC4Mutation] at hmut
  · rcases versionCommentOnlyStep_shape o st with h | h <;> rw [h] at hin <;>
      simp at hin
    subst hin
    simp [isC4Mutation] at hmut
  · subst hin
    simp [isC4Mutation] at hmut
  · refine ⟨fun hne => absurd hav0 hne, fun _ => ?_⟩
    rcases hin with hin | hin
    · exact (versionMutations_mem o st 1 c hin).2
    · rcases finishVersion_mem o st 1 c hin with rfl | rfl <;>
        simp [isC4Mutation] at hmut
  · refine ⟨fun _ => ?_, fun h0 => absurd h0 hne⟩
    rcases hin with hin | hin | hin
    · rcases cloneCommentStep_shape o st n with h | h <;> rw [h] at hin <;>
        simp at hin
      subst hin
      simp [isC4Mutation] at hmut
    · have hv := (versionMutations_mem o st n c hin).2
      refine ⟨?_, n, hcl, hv⟩
      rw [hv]
      intro hco
      exact hclone n hcl (Option.some.inj hco)
    · rcases finishVersion_mem o st n c hin with rfl | rfl <;>
        simp [isC4Mutation] at hmut

/-- C4 witness: the delete of condition "a" inside the concrete update of a
service with active version 5 targets the cloned version 7, not 5. -/
theorem spec_c4_witness :
    (stCond.activeVersion ≠ 0 →
      callVersion (ApiCall.deleteElem BlockType.condition 7 "a") ≠
        some stCond.activeVersion ∧
      ∃ n, oracleOk.cloneRes = Except.ok n ∧
        callVersion (ApiCall.deleteElem BlockType.condition 7 "a") = some n) ∧
    (stCond.activeVersion = 0 →
      callVersion (ApiCall.deleteElem BlockType.condition 7 "a") = some 1) :=
  spec_c4 oracleOk stCond
    (by
      intro n h
      simp [oracleOk] at h
      subst h
      decide)
    (ApiCall.deleteElem BlockType.condition 7 "a") (by decide) (by decide)

/-- C5.  A mutated version is activated only after it validates: when
`ValidateVersion` errors or reports the configuration invalid, the update
returns an error, never calls `ActivateVersion`, and leaves the stored
`active_version` unwritten; conversely `active_version` is written, to the
new working version, only after a valid validation and a successful
activation with the activate flag set. -/
theorem spec_c5 (o : Oracle) (st : ResourceState) :
    (needsChange st = true →
      ((∃ e, o.validateRes = Except.error e) ∨
       (∃ msg, o.validateRes = Except.ok (false, msg))) →
      (resourceServiceV1Update o st).err.isSome = true ∧
      (∀ v, ApiCall.activateVersion v ∉ (resourceServiceV1Update o st).trace) ∧
      (resourceServiceV1Update o st).activeVersionSet = none)
    ∧ (∀ n, (resourceServiceV1Update o st).activeVersionSet = some n →
        (∃ msg, o.validateRes = Except.ok (true, msg)) ∧ st.activate = true ∧
        o.activateRes = none ∧ (resourceServiceV1Update o st).err = none ∧
        ApiCall.activateVersion n ∈ (resourceServiceV1Update o st).trace ∧
        (st.activeVersion = 0 → n = 1) ∧
        (st.activeVersion ≠ 0 → o.cloneRes = Except.ok n)) := by
  constructor
  · intro hn hbad
    have hvalne : ∀ msg, o.validateRes ≠ Except.ok (true, msg) := by
      intro msg2 hco
      rcases hbad with ⟨e, he⟩ | ⟨m, hm⟩
      · rw [hco] at he
        simp at he
      · rw [hco] at hm
        simp at hm
    refine ⟨?_, ?_, ?_⟩
    · cases herr : (resourceServiceV1Update o st).err with
      | none =>
        obtain ⟨msg, hv⟩ := update_ok_validate o st hn herr
        exact absurd hv (hvalne msg)
      | some e => simp
    · intro v hv
      rcases update_mem o st _ hv with hin | hin | hin | ⟨hav0, hin⟩ |
        ⟨n, hcl, hne, hin⟩
      · rcases svcUpdateStep_shape o st with h | h <;> rw [h] at hin <;>
          simp at hin
      · rcases versionCommentOnlyStep_shape o st with h | h <;> rw [h] at hin <;>
          simp at hin
      · simp at hin
      · rcases hin with hin | hin
        · have := (versionMutations_mem o st 1 _ hin).1
          simp [isVersionedMutation, isC4Mutation] at this
        · rcases hbad with ⟨e, he⟩ | ⟨msg, hm⟩
          · rw [finishVersion_validate_err o st 1 e he] at hin
            simp at hin
          · rw [finishVersion_invalid o st 1 msg hm] at hin
            simp at hin
      · rcases hin with hin | hin | hin
        · rcases cloneCommentStep_shape o st n with h | h <;> rw [h] at hin <;>
            simp at hin
        · have := (versionMutations_mem o st n _ hin).1
          simp [isVersionedMutation, isC4Mutation] at this
        · rcases hbad with ⟨e, he⟩ | ⟨msg, hm⟩
          · rw [finishVersion_validate_err o st n e he] at hin
            simp at hin
          · rw [finishVersion_invalid o st n msg hm] at hin
            simp at hin
    · cases havs : (resourceServiceV1Update o st).activeVersionSet with
      | none => rfl
      | some n =>
        obtain ⟨v, hfin, _, _, _⟩ := update_avSet_inv o st n havs
        obtain ⟨_, ⟨msg, hv⟩, _⟩ := finishVersion_avSet o st v n hfin
        exact absurd hv (hvalne msg)
  · intro n havs
    obtain ⟨v, hfin, herr, hsub, hor⟩ := update_avSet_inv o st n havs
    obtain ⟨hnv, ⟨msg, hval⟩, hact, hares, hfinerr, hftr⟩ :=
      finishVersion_avSet o st v n hfin
    subst hnv
    refine ⟨⟨msg, hval⟩, hact, hares, by rw [herr]; exact hfinerr, ?_, ?_, ?_⟩
    · apply hsub
      rw [hftr]
      simp
    · intro hav0
      rcases hor with ⟨_, hv1⟩ | ⟨hne, _⟩
      · exact hv1
      · exact absurd hav0 hne
    · intro hne
      rcases hor with ⟨hav0, _⟩ | ⟨_, hcl⟩
      · exact absurd hav0 hne
      · exact hcl

/-- C5 witness: with a validation that reports the configuration invalid,
the concrete update errors, does not activate version 7, and leaves
`active_version` unwritten; with the all-success oracle, `active_version`
is written only alongside a successful activation of the cloned version. -/
theorem spec_c5_witness :
    ((resourceServiceV1Update oracleInvalid stCond).err.isSome = true ∧
     ApiCall.activateVersion 7 ∉ (resourceServiceV1Update oracleInvalid stCond).trace ∧
     (resourceServiceV1Update oracleInvalid stCond).activeVersionSet = none) ∧
    ((∃ msg, oracleOk.validateRes = Except.ok (true, msg)) ∧
     ApiCall.activateVersion 7 ∈ (resourceServiceV1Update oracleOk stCond).trace) :=
  ⟨⟨((spec_c5 oracleInvalid stCond).1 (by decide) (Or.inr ⟨"boom", rfl⟩)).1,
    ((spec_c5 oracleInvalid stCond).1 (by decide) (Or.inr ⟨"boom", rfl⟩)).2.1 7,
    ((spec_c5 oracleInvalid stCond).1 (by decide) (Or.inr ⟨"boom", rfl⟩)).2.2⟩,
   ⟨((spec_c5 oracleOk stCond).2 7 (by decide)).1,
    ((spec_c5 oracleOk stCond).2 7 (by decide)).2.2.2.2.1⟩⟩

/-- C6.  On a successful refresh of an existing service whose remote active
version is nonzero, every sub-resource block's stored state is replaced by
the flattened result of listing that block type at the remote active
version; when the remote active version is zero no block is refreshed; in
both cases the remote active version is recorded. -/
theorem spec_c6 (o : ReadOracle) (st : StoredState) (fs : FService)
    (s : ServiceDetail) (ls : BlockType → List RemoteElem) (dh : String)
    (dttl : Nat)
    (hfind : findService o st.id = Except.ok fs)
    (hd : o.detailsRes = Except.ok s)
    (hset : o.settingsRes = Except.ok (dh, dttl))
    (hls : ∀ bt, o.listBlockRes bt s.activeVersionNumber = Except.ok (ls bt)) :
    (s.activeVersionNumber ≠ 0 →
      (resourceServiceV1Read o st).snd = none ∧
      ∀ bt, (resourceServiceV1Read o st).fst.blocks bt = flattenBlock bt (ls bt))
    ∧ (s.activeVersionNumber = 0 →
      (resourceServiceV1Read o st).snd = none ∧
      ∀ bt, (resourceServiceV1Read o st).fst.blocks bt = st.blocks bt)
    ∧ (resourceServiceV1Read o st).fst.activeVersion = s.activeVersionNumber := by
  refine ⟨?_, ?_, ?_⟩
  · intro hne
    have hrb := refreshBlocks_ok o s.activeVersionNumber ls hls st.blocks readOrder
    constructor
    · simp [resourceServiceV1Read, hfind, hd, hne, hset, hrb.1]
    · intro bt
      have hval := hrb.2 bt
      rw [if_pos (mem_readOrder bt)] at hval
      simp [resourceServiceV1Read, hfind, hd, hne, hset, hval]
  · intro h0
    constructor
    · simp [resourceServiceV1Read, hfind, hd, h0]
    · intro bt
      simp [resourceServiceV1Read, hfind, hd, h0]
  · by_cases hne : s.activeVersionNumber ≠ 0
    · simp [resourceServiceV1Read, hfind, hd, hne, hset]
    · simp at hne
      simp [resourceServiceV1Read, hfind, hd, hne]

/-- C6 witness: a concrete refresh replaces the domain block by the plain
projection of the listing and the snippet block by the dynamic-filtered
projection, while an active version of zero leaves the stored blocks
untouched. -/
theorem spec_c6_witness :
    (resourceServiceV1Read readOracleOk storedEx).snd = none ∧
    (resourceServiceV1Read readOracleOk storedEx).fst.blocks BlockType.domain =
      flattenBlock BlockType.domain remoteListEx ∧
    (resourceServiceV1Read readOracleOk storedEx).fst.blocks BlockType.snippet =
      flattenBlock BlockType.snippet remoteListEx ∧
    (resourceServiceV1Read readOracleFresh storedEx).fst.blocks BlockType.domain =
      storedEx.blocks BlockType.domain :=
  ⟨((spec_c6 readOracleOk storedEx ⟨"srv1"⟩ ⟨"svc", "cm", "vcm", 4⟩
      (fun _ => remoteListEx) "h" 3600 rfl rfl rfl (fun _ => rfl)).1
      (by decide)).1,
   ((spec_c6 readOracleOk storedEx ⟨"srv1"⟩ ⟨"svc", "cm", "vcm", 4⟩
      (fun _ => remoteListEx) "h" 3600 rfl rfl rfl (fun _ => rfl)).1
      (by decide)).2 BlockType.domain,
   ((spec_c6 readOracleOk storedEx ⟨"srv1"⟩ ⟨"svc", "cm", "vcm", 4⟩
      (fun _ => remoteListEx) "h" 3600 rfl rfl rfl (fun _ => rfl)).1
      (by decide)).2 BlockType.snippet,
   ((spec_c6 readOracleFresh storedEx ⟨"srv1"⟩ ⟨"svc", "cm", "vcm", 0⟩
      (fun _ => remoteListEx) "h" 3600 rfl rfl rfl (fun _ => rfl)).2.1
      rfl).2 BlockType.domain⟩

/-- C7.  The engine registers over twenty sub-resource block types on the
one service resource (the enumerated kinds among them, with nine logging
variants); ACLs and dictionaries are registered in the alternative copy of
the resource, and the WAF registration is modelled from the spec; every
registered versioned block key is in the `needsChange` trigger list, a
change to any reconciled block raises `needsChange`, and a raised
`needsChange` on an activated service issues the clone of the active
version. -/
theorem spec_c7 :
    20 < registeredBlockKeysV1.length ∧
    (∀ k ∈ ["domain", "backend", "header", "condition", "director",
        "healthcheck", "vcl", "snippet"], k ∈ registeredBlockKeysV1) ∧
    (8 ≤ loggingKeys.length ∧ ∀ k ∈ loggingKeys, k ∈ registeredBlockKeysV1) ∧
    ("acl" ∈ registeredBlockKeysAlt ∧ "dictionary" ∈ registeredBlockKeysAlt ∧
      "waf" ∈ wafRegisteredKeysSpec) ∧
    (∀ k ∈ registeredBlockKeysV1, k ∈ needsChangeKeysV1) ∧
    (∀ k ∈ registeredBlockKeysAlt, k ∈ needsChangeKeysAlt) ∧
    (∀ bt : BlockType, blockKey bt ∈ registeredBlockKeysV1 ∧
      blockKey bt ∈ needsChangeKeysV1) ∧
    (∀ (st : ResourceState) (bt : BlockType),
      st.oldBlock bt ≠ st.newBlock bt → needsChange st = true) ∧
    (∀ (o : Oracle) (st : ResourceState),
      needsChange st = true → st.activeVersion ≠ 0 →
      (svcUpdateStep o st).snd = none →
      ApiCall.cloneVersion st.activeVersion ∈
        (resourceServiceV1Update o st).trace) := by
  refine ⟨by decide, by decide, ⟨by decide, by decide⟩,
    ⟨by decide, by decide, by decide⟩, by decide, by decide, by decide, ?_, ?_⟩
  · intro st bt hch
    have hall : ∀ b : BlockType, b ∈ needsChangeBlocks := by decide
    have hany : needsChangeBlocks.any (blockChanged st) = true :=
      List.any_eq_true.mpr ⟨bt, hall bt, by simp [blockChanged, hch]⟩
    simp [needsChange, hany]
  · intro o st hn hav hsc
    cases hcl : o.cloneRes with
    | error e => simp [resourceServiceV1Update, hsc, hn, hav, hcl]
    | ok m =>
      cases hcc : (cloneCommentStep o st m).snd with
      | some e => simp [resourceServiceV1Update, hsc, hn, hav, hcl, hcc]
      | none =>
        cases hvm : (versionMutations o st m).snd with
        | some e =>
          simp [resourceServiceV1Update, hsc, hn, hav, hcl, hcc,
            runVersionChanges, hvm]
        | none =>
          simp [resourceServiceV1Update, hsc, hn, hav, hcl, hcc,
            runVersionChanges, hvm]

/-- C7 witness: the concrete condition-block change raises `needsChange`
and the concrete update of the version-5 service issues the clone of
version 5. -/
theorem spec_c7_witness :
    needsChange stCond = true ∧
    ApiCall.cloneVersion 5 ∈ (resourceServiceV1Update oracleOk stCond).trace :=
  ⟨spec_c7.2.2.2.2.2.2.2.1 stCond BlockType.condition (by decide),
   spec_c7.2.2.2.2.2.2.2.2 oracleOk stCond (by decide) (by decide) (by decide)⟩

/-- C8.  In every delete loop a 404 `HTTPError` is treated as success (the
loop continues with the next element, and an all-ok-or-404 loop issues one
delete per element and succeeds), while any other delete error aborts: the
loop stops right after the failed call with that error, the block
reconciliation returns it having issued only delete calls, the block
sequence returns it from its first changed block, and the whole update
returns it as its own error. -/
theorem spec_c8 :
    (∀ (o : Oracle) (bt : BlockType) (v : Nat) (es : List Elem),
      (∀ e ∈ es, o.deleteRes bt e.name = none ∨
        o.deleteRes bt e.name = some (ApiErr.http 404)) →
      runDeletes o bt v es =
        (es.map (fun e => ApiCall.deleteElem bt v e.name), none)) ∧
    (∀ (o : Oracle) (bt : BlockType) (v : Nat) (pre : List Elem) (e : Elem)
        (rest : List Elem) (err : ApiErr),
      (∀ x ∈ pre, o.deleteRes bt x.name = none ∨
        o.deleteRes bt x.name = some (ApiErr.http 404)) →
      o.deleteRes bt e.name = some err → err ≠ ApiErr.http 404 →
      runDeletes o bt v (pre ++ e :: rest) =
        (pre.map (fun x => ApiCall.deleteElem bt v x.name) ++
          [ApiCall.deleteElem bt v e.name], some err)) ∧
    (∀ (o : Oracle) (st : ResourceState) (bt : BlockType) (v : Nat) (e : ApiErr),
      (runDeletes o bt v (setDiff (st.oldBlock bt) (st.newBlock bt))).snd = some e →
      (processBlock o st bt v).snd = some e ∧
      ∀ c ∈ (processBlock o st bt v).fst, isDeleteCall c = true) ∧
    (∀ (o : Oracle) (st : ResourceState) (v : Nat) (bt : BlockType)
        (rest : List BlockType) (e : ApiErr),
      st.oldBlock bt ≠ st.newBlock bt → (processBlock o st bt v).snd = some e →
      (processBlocks o st v (bt :: rest)).snd = some e) ∧
    (∀ (o : Oracle) (st : ResourceState) (e : ApiErr),
      (svcUpdateStep o st).snd = none → needsChange st = true →
      st.activeVersion = 0 → (versionMutations o st 1).snd = some e →
      (resourceServiceV1Update o st).err = some (UpdErr.api e)) ∧
    (∀ (o : Oracle) (st : ResourceState) (n : Nat) (e : ApiErr),
      (svcUpdateStep o st).snd = none → needsChange st = true →
      st.activeVersion ≠ 0 → o.cloneRes = Except.ok n →
      (cloneCommentStep o st n).snd = none →
      (versionMutations o st n).snd = some e →
      (resourceServiceV1Update o st).err = some (UpdErr.api e)) := by
  refine ⟨runDeletes_ok, runDeletes_abort, ?_, ?_, update_err_vm_fresh,
    update_err_vm_clone⟩
  · intro o st bt v e h
    rw [processBlock_delete_abort o st bt v e h]
    refine ⟨rfl, fun c hc => ?_⟩
    obtain ⟨nm, rfl⟩ := runDeletes_mem o bt v _ c hc
    simp [isDeleteCall]
  · intro o st v bt rest e hch h
    rw [processBlocks_head_abort o st v bt rest e hch h]

/-- C8 witness: deleting elements a (remote answers 404), b (remote answers
a 500) and c in order issues the delete of a, tolerates its 404, issues the
delete of b and aborts with the 500 before any further call. -/
theorem spec_c8_witness :
    runDeletes oracleDel BlockType.domain 1 [elemA, elemB, elemC] =
      ([ApiCall.deleteElem BlockType.domain 1 "a",
        ApiCall.deleteElem BlockType.domain 1 "b"], some (ApiErr.http 500)) :=
  spec_c8.2.1 oracleDel BlockType.domain 1 [elemA] elemB [elemC]
    (ApiErr.http 500) (by decide) (by decide) (by decide)

/-- C9.  In every update run the per-type reconciliations follow the fixed
source order: every call of the condition block precedes every call of any
other block, and every healthcheck call precedes every backend call. -/
theorem spec_c9 (o : Oracle) (st : ResourceState) :
    (∃ l1 l2, (resourceServiceV1Update o st).trace.filterMap blockOf = l1 ++ l2 ∧
      (∀ t ∈ l1, t = BlockType.condition) ∧ BlockType.condition ∉ l2) ∧
    (∃ m1 m2, (resourceServiceV1Update o st).trace.filterMap blockOf = m1 ++ m2 ∧
      BlockType.backend ∉ m1 ∧ BlockType.healthcheck ∉ m2) := by
  rcases update_tags o st with ⟨v, hv⟩ | hv
  · constructor
    · have hsplit := processBlocks_tags_split o st v (processOrder.take 1)
        (processOrder.drop 1)
      rw [List.take_append_drop] at hsplit
      obtain ⟨a, b, hab, ha, hb⟩ := hsplit
      refine ⟨a, b, by rw [hv, hab], ?_, ?_⟩
      · intro t ht
        have := ha t ht
        simpa [processOrder] using this
      · intro hcmem
        exact absurd (hb _ hcmem) (by decide)
    · have hsplit := processBlocks_tags_split o st v (processOrder.take 3)
        (processOrder.drop 3)
      rw [List.take_append_drop] at hsplit
      obtain ⟨a, b, hab, ha, hb⟩ := hsplit
      refine ⟨a, b, by rw [hv, hab], ?_, ?_⟩
      · intro hmem
        exact absurd (ha _ hmem) (by decide)
      · intro hmem
        exact absurd (hb _ hmem) (by decide)
  · exact ⟨⟨[], [], by simp [hv], by simp, by simp⟩,
      ⟨[], [], by simp [hv], by simp, by simp⟩⟩

/-- C10.  `findService` returns the `fastlyNoServiceFoundErr` sentinel
exactly when the ID is absent from the `ListServices` response, and the
read of such an absent service clears the stored resource ID and returns
success. -/
theorem spec_c10 (o : ReadOracle) (st : StoredState) (l : List FService)
    (h : o.listServicesRes = Except.ok l) :
    (findService o st.id = Except.error FindErr.noServiceFound ↔
      st.id ∉ l.map FService.id) ∧
    (st.id ∉ l.map FService.id →
      resourceServiceV1Read o st = ({ st with id := "" }, none)) := by
  have hiff := findService_noService_iff l o st.id h
  refine ⟨hiff, fun habs => ?_⟩
  have hfs := hiff.mpr habs
  simp [resourceServiceV1Read, hfs]

/-- C10 witness: reading a service whose ID is absent from the listing
clears the ID and succeeds. -/
theorem spec_c10_witness :
    resourceServiceV1Read readOracleGone storedEx =
      ({ storedEx with id := "" }, none) :=
  (spec_c10 readOracleGone storedEx [⟨"other"⟩] rfl).2 (by decide)
